import Mathlib

/-!
Verification of the MapGPS georeferencing core (GeoReferencer/js/math-utils.js,
affine-transformation.js, georeferencing.js, route-spot-handler.js).

The JavaScript source is shallowly embedded over `ℚ`: JS numbers become exact
rationals, JS `null`/`undefined` becomes `Option`, and the transcendental
Web-Mercator latitude projection (`Math.log`/`Math.tan`/`Math.atan`/`Math.exp`)
is an abstract parameter `ℚ → ℚ` wherever a function merely plumbs it through.
Mutable JS arrays are modelled either as values (for value-level claims) or via
an explicit store of rows (for the frame/no-mutation claim about `gaussJordan`).
-/

namespace MapGPS

abbrev Vec := List ℚ
abbrev Mat := List Vec

/-- Row `i` of a matrix, with the empty row as JS-style out-of-range default. -/
def rowOf (M : Mat) (i : Nat) : Vec := M.getD i []

/-- Entry `(i, j)` of a matrix (`augmented[i][j]` in the source). -/
def entry (M : Mat) (i j : Nat) : ℚ := (rowOf M i).getD j 0

/-- Dot product of two lists, mirroring
`row.reduce((sum, val, i) => sum + val * vector[i], 0)`. -/
def dotProd (u v : Vec) : ℚ := (List.zipWith (· * ·) u v).sum

/-- `A · x` for a row-major matrix. -/
def matVecMul (A : Mat) (x : Vec) : Vec := A.map (fun row => dotProd row x)

/-! ### Basic list access lemmas -/

theorem getD_set_self {α : Type _} (l : List α) (i : Nat) (a d : α)
    (h : i < l.length) : (l.set i a).getD i d = a := by
  induction l generalizing i with
  | nil => simp at h
  | cons b t ih =>
    cases i with
    | zero => simp [List.set, List.getD]
    | succ k =>
      simp only [List.set, List.getD, List.get?] at *
      exact ih k (by simpa using h)

theorem getD_set_ne {α : Type _} (l : List α) (i k : Nat) (a d : α)
    (h : k ≠ i) : (l.set i a).getD k d = l.getD k d := by
  induction l generalizing i k with
  | nil => simp [List.set]
  | cons b t ih =>
    cases i with
    | zero =>
      cases k with
      | zero => exact absurd rfl h
      | succ m => simp [List.set, List.getD]
    | succ j =>
      cases k with
      | zero => simp [List.set, List.getD]
      | succ m =>
        simp only [List.set, List.getD, List.get?]
        exact ih j m (fun e => h (by simp [e]))

theorem getD_append_lt {α : Type _} (u v : List α) (j : Nat) (d : α)
    (h : j < u.length) : (u ++ v).getD j d = u.getD j d := by
  induction u generalizing j with
  | nil => simp at h
  | cons a t ih =>
    cases j with
    | zero => simp [List.getD]
    | succ k =>
      simp only [List.cons_append, List.getD, List.get?]
      exact ih k (by simpa using h)

theorem getD_append_ge {α : Type _} (u v : List α) (j : Nat) (d : α)
    (h : u.length ≤ j) : (u ++ v).getD j d = v.getD (j - u.length) d := by
  induction u generalizing j with
  | nil => simp
  | cons a t ih =>
    cases j with
    | zero => simp at h
    | succ k =>
      simp only [List.cons_append, List.getD, List.get?, List.length_cons]
      have := ih (j := k) (by simpa using h)
      simpa [Nat.succ_sub_succ] using this

theorem getD_map_lt {α β : Type _} (f : α → β) (l : List α) (j : Nat)
    (d : α) (d' : β) (h : j < l.length) :
    (l.map f).getD j d' = f (l.getD j d) := by
  induction l generalizing j with
  | nil => simp at h
  | cons a t ih =>
    cases j with
    | zero => simp [List.getD]
    | succ k =>
      simp only [List.map, List.getD, List.get?]
      exact ih k (by simpa using h)

theorem getD_take_lt {α : Type _} (l : List α) (i j : Nat) (d : α)
    (h : j < i) : (l.take i).getD j d = l.getD j d := by
  induction l generalizing i j with
  | nil => simp
  | cons a t ih =>
    cases i with
    | zero => omega
    | succ m =>
      cases j with
      | zero => simp [List.getD]
      | succ k =>
        simp only [List.take, List.getD, List.get?]
        exact ih m k (by omega)

theorem getD_drop {α : Type _} (l : List α) (i j : Nat) (d : α) :
    (l.drop i).getD j d = l.getD (i + j) d := by
  induction l generalizing i with
  | nil => simp
  | cons a t ih =>
    cases i with
    | zero => simp
    | succ m =>
      have h1 : m + 1 + j = (m + j) + 1 := by omega
      simp only [List.drop_succ_cons, h1, List.getD_cons_succ]
      exact ih m

theorem getD_zipWith_lt {α β γ : Type _} (f : α → β → γ) (u : List α)
    (v : List β) (j : Nat) (da : α) (db : β) (dc : γ)
    (hu : j < u.length) (hv : j < v.length) :
    (List.zipWith f u v).getD j dc = f (u.getD j da) (v.getD j db) := by
  induction u generalizing v j with
  | nil => simp at hu
  | cons a t ih =>
    cases v with
    | nil => simp at hv
    | cons b s =>
      cases j with
      | zero => simp [List.getD]
      | succ k =>
        simp only [List.zipWith, List.getD, List.get?]
        exact ih s k (by simpa using hu) (by simpa using hv)

theorem getD_eq_zero_of_ge {α : Type _} (l : List α) (j : Nat) (d : α)
    (h : l.length ≤ j) : l.getD j d = d := by
  induction l generalizing j with
  | nil => simp [List.getD]
  | cons a t ih =>
    cases j with
    | zero => simp at h
    | succ k =>
      simp only [List.getD, List.get?]
      exact ih k (by simpa using h)

/-- Two lists of the same length with the same `getD` entries are equal. -/
theorem list_ext_getD (u v : Vec) (hlen : u.length = v.length)
    (h : ∀ j, j < u.length → u.getD j 0 = v.getD j 0) : u = v := by
  induction u generalizing v with
  | nil => cases v with
    | nil => rfl
    | cons b s => simp at hlen
  | cons a t ih =>
    cases v with
    | nil => simp at hlen
    | cons b s =>
      have h0 := h 0 (by simp)
      simp only [List.getD] at h0
      simp only [List.get?] at h0
      refine congrArg₂ List.cons (by simpa using h0) ?_
      refine ih s (by simpa using hlen) ?_
      intro j hj
      have := h (j + 1) (by simpa using Nat.succ_lt_succ hj)
      simpa [List.getD] using this

/-- `dotProd` of two length-`m` lists as a finite sum of entries. -/
theorem dotProd_eq_sum (u v : Vec) (m : Nat) (hu : u.length = m)
    (hv : v.length = m) :
    dotProd u v = ∑ j in Finset.range m, u.getD j 0 * v.getD j 0 := by
  induction m generalizing u v with
  | zero =>
    have hu' : u = [] := List.eq_nil_of_length_eq_zero hu
    have hv' : v = [] := List.eq_nil_of_length_eq_zero hv
    simp [hu', hv', dotProd]
  | succ m ih =>
    cases u with
    | nil => simp at hu
    | cons a t =>
      cases v with
      | nil => simp at hv
      | cons b s =>
        have ht : t.length = m := by simpa using hu
        have hs : s.length = m := by simpa using hv
        have hsum :
            (∑ j in Finset.range (m + 1),
              (a :: t).getD j 0 * (b :: s).getD j 0) =
            a * b + ∑ j in Finset.range m, t.getD j 0 * s.getD j 0 := by
          rw [Finset.sum_range_succ']
          simp [List.getD, add_comm]
        rw [hsum, ← ih t s ht hs]
        simp [dotProd]

/-! ### Gauss-Jordan elimination (math-utils.js `gaussJordan`, value level)

The JS routine copies `A` and `B` into a fresh augmented matrix
(`A.map((row, i) => [...row, B[i]])`) and then, for each `i`, selects the
partial pivot, swaps it into place, rejects pivots below `1e-10`, normalizes
row `i` from column `i` on, and eliminates column `i` from every other row. -/

/-- The near-singularity threshold `1e-10` of the source. -/
def pivotEps : ℚ := 1 / 10000000000

/-- Partial pivot selection: the row index in `i..n-1` whose entry in column
`i` has the largest absolute value (first maximum wins, mirroring the strict
`>` comparison of the source loop). -/
def pivotRow (aug : Mat) (i : Nat) : Nat :=
  (List.range' (i + 1) (aug.length - (i + 1))).foldl
    (fun maxRow k =>
      if |entry aug k i| > |entry aug maxRow i| then k else maxRow) i

/-- Row swap `[augmented[i], augmented[maxRow]] = [augmented[maxRow], augmented[i]]`,
guarded by the source's `if (maxRow !== i)`. -/
def swapRows (M : Mat) (i j : Nat) : Mat :=
  if i = j then M else (M.set i (rowOf M j)).set j (rowOf M i)

/-- Normalization `for (j = i; j <= n; j++) augmented[i][j] /= pivot`. -/
def scaleRowFrom (row : Vec) (i : Nat) (p : ℚ) : Vec :=
  row.take i ++ (row.drop i).map (· / p)

/-- Elimination of row `row` against the normalized pivot row:
`factor = augmented[k][i]; for (j = i; j <= n; j++) augmented[k][j] -= factor * augmented[i][j]`. -/
def elimRow (pivN : Vec) (i : Nat) (row : Vec) : Vec :=
  row.take i ++
    List.zipWith (fun a b => a - row.getD i 0 * b) (row.drop i) (pivN.drop i)

/-- List map carrying the element index, used to render the `k ≠ i` row loop. -/
def mapIdxFrom {α β : Type _} (f : Nat → α → β) : Nat → List α → List β
  | _, [] => []
  | s, a :: as => f s a :: mapIdxFrom f (s + 1) as

/-- One iteration of the outer `for (i = 0; i < n; i++)` loop. -/
def elimStep (aug : Mat) (i : Nat) : Option Mat :=
  let m := pivotRow aug i
  let aug1 := swapRows aug i m
  if |entry aug1 i i| < pivotEps then none
  else
    let pivN := scaleRowFrom (rowOf aug1 i) i (entry aug1 i i)
    let aug2 := aug1.set i pivN
    some (mapIdxFrom
      (fun k row => if k = i then row else elimRow pivN i row) 0 aug2)

/-- The outer loop, running steps `i, i+1, ..., i+fuel-1`. -/
def elimLoop : Nat → Nat → Mat → Option Mat
  | 0, _, aug => some aug
  | fuel + 1, i, aug =>
    match elimStep aug i with
    | none => none
    | some aug' => elimLoop fuel (i + 1) aug'

/-- The augmented matrix `A.map((row, i) => [...row, B[i]])`. -/
def augmentedOf (A : Mat) (B : Vec) : Mat :=
  List.zipWith (fun row b => row ++ [b]) A B

/-- `gaussJordan(A, B)` of math-utils.js: `null` when the row counts differ,
otherwise Gauss-Jordan elimination with partial pivoting over the augmented
matrix, extracting `augmented.map(row => row[n])` on success. -/
def gaussJordan (A : Mat) (B : Vec) : Option Vec :=
  if A.length ≠ B.length then none
  else
    let n := A.length
    match elimLoop n 0 (augmentedOf A B) with
    | none => none
    | some aug => some (aug.map (fun row => row.getD n 0))

unseal Rat.mul Rat.add Rat.sub Rat.inv in
theorem gaussJordan_example_regular :
    gaussJordan [[2, 1], [1, 3]] [3, 5] = some [4/5, 7/5] := by decide

unseal Rat.mul Rat.add Rat.sub Rat.inv in
theorem gaussJordan_example_singular :
    gaussJordan [[1, 2], [2, 4]] [3, 5] = none := by decide

unseal Rat.mul Rat.add Rat.sub Rat.inv in
theorem gaussJordan_example_mismatch :
    gaussJordan [[1, 0], [0, 1]] [3] = none := by decide

/-! ### Correctness of the elimination

Invariant: after the steps `0 .. i-1` of the outer loop, each processed column
is a standard basis column, every row still has `n + 1` entries, and the row
operations performed so far have not changed the solution set of the augmented
system. -/

/-- Well-formedness of an `n × (n+1)` augmented matrix. -/
def WF (n : Nat) (M : Mat) : Prop :=
  M.length = n ∧ ∀ k, k < n → (rowOf M k).length = n + 1

/-- Column `j` of `M` is the `j`-th standard basis column. -/
def colId (n : Nat) (M : Mat) (j : Nat) : Prop :=
  entry M j j = 1 ∧ ∀ k, k < n → k ≠ j → entry M k j = 0

/-- Loop invariant before step `i`. -/
def Inv (n i : Nat) (M : Mat) : Prop :=
  WF n M ∧ ∀ j, j < i → colId n M j

/-- `x` solves the whole augmented system: for every row `k`, the dot product
of the coefficient part with `x` equals the right-hand-side entry. -/
def SolA (n : Nat) (M : Mat) (x : Vec) : Prop :=
  ∀ k, k < n →
    (∑ j in Finset.range n, entry M k j * x.getD j 0) = entry M k n

theorem foldl_argmax (f : Nat → ℚ) (l : List Nat) (b : Nat) :
    ((l.foldl (fun best k => if f k > f best then k else best) b) = b ∨
      (l.foldl (fun best k => if f k > f best then k else best) b) ∈ l) ∧
    f b ≤ f (l.foldl (fun best k => if f k > f best then k else best) b) ∧
    ∀ k ∈ l, f k ≤ f (l.foldl (fun best k => if f k > f best then k else best) b) := by
  induction l generalizing b with
  | nil => exact ⟨Or.inl rfl, le_refl _, by simp⟩
  | cons a t ih =>
    simp only [List.foldl_cons]
    set b' := if f a > f b then a else b with hb'
    obtain ⟨hmem, hble, hall⟩ := ih b'
    have hbb' : f b ≤ f b' := by
      rw [hb']; split
      · exact le_of_lt (by assumption)
      · exact le_refl _
    have hab' : f a ≤ f b' := by
      rw [hb']; split
      · exact le_refl _
      · exact le_of_not_lt (by assumption)
    refine ⟨?_, le_trans hbb' hble, ?_⟩
    · rcases hmem with h | h
      · rw [h, hb']; split
        · exact Or.inr (List.mem_cons_self _ _)
        · exact Or.inl rfl
      · exact Or.inr (List.mem_cons_of_mem _ h)
    · intro k hk
      rcases List.mem_cons.mp hk with h | h
      · rw [h]; exact le_trans hab' hble
      · exact hall k h

theorem pivotRow_bounds (aug : Mat) (i : Nat) (h : i < aug.length) :
    i ≤ pivotRow aug i ∧ pivotRow aug i < aug.length ∧
      ∀ k, i ≤ k → k < aug.length →
        |entry aug k i| ≤ |entry aug (pivotRow aug i) i| := by
  have hfold := foldl_argmax (fun k => |entry aug k i|)
    (List.range' (i + 1) (aug.length - (i + 1))) i
  obtain ⟨hmem, hble, hall⟩ := hfold
  have hrange : ∀ k ∈ List.range' (i + 1) (aug.length - (i + 1)),
      i + 1 ≤ k ∧ k < aug.length := by
    intro k hk
    have := List.mem_range'_1.mp hk
    omega
  refine ⟨?_, ?_, ?_⟩
  · rcases hmem with hm | hm
    · rw [pivotRow, hm]
    · have := (hrange _ hm).1
      rw [pivotRow]; omega
  · rcases hmem with hm | hm
    · rw [pivotRow, hm]; exact h
    · have := (hrange _ hm).2
      rw [pivotRow]; omega
  · intro k hik hk
    rcases Nat.eq_or_lt_of_le hik with he | hlt
    · subst he; exact hble
    · exact hall k (List.mem_range'_1.mpr ⟨hlt, by omega⟩)

theorem length_swapRows (M : Mat) (i j : Nat) :
    (swapRows M i j).length = M.length := by
  unfold swapRows; split
  · rfl
  · simp

/-- The index permutation realized by a row swap. -/
def swapIdxFun (i m k : Nat) : Nat :=
  if k = i then m else if k = m then i else k

theorem swapIdxFun_invol (i m k : Nat) :
    swapIdxFun i m (swapIdxFun i m k) = k := by
  unfold swapIdxFun
  split_ifs <;> omega

theorem swapIdxFun_lt (i m k n : Nat) (hi : i < n) (hm : m < n) (hk : k < n) :
    swapIdxFun i m k < n := by
  unfold swapIdxFun
  split
  · exact hm
  · split
    · exact hi
    · exact hk

theorem rowOf_swapRows (M : Mat) (i m : Nat) (hi : i < M.length)
    (hm : m < M.length) (k : Nat) :
    rowOf (swapRows M i m) k = rowOf M (swapIdxFun i m k) := by
  unfold swapRows swapIdxFun
  by_cases him : i = m
  · subst him
    rw [if_pos rfl]
    by_cases h1 : k = i
    · simp [h1]
    · rw [if_neg h1, if_neg h1]
  · rw [if_neg him]
    by_cases h2 : k = m
    · have hki : ¬ k = i := fun h => him (h.symm.trans h2)
      rw [if_neg hki, if_pos h2]
      show ((M.set i (rowOf M m)).set m (rowOf M i)).getD k [] = rowOf M i
      rw [h2]
      have hm' : m < (M.set i (rowOf M m)).length := by
        rw [List.length_set]; exact hm
      exact getD_set_self _ _ _ _ hm'
    · by_cases h1 : k = i
      · rw [if_pos h1]
        show ((M.set i (rowOf M m)).set m (rowOf M i)).getD k [] = rowOf M m
        rw [getD_set_ne _ _ _ _ _ h2, h1]
        exact getD_set_self _ _ _ _ hi
      · rw [if_neg h1, if_neg h2]
        show ((M.set i (rowOf M m)).set m (rowOf M i)).getD k [] = rowOf M k
        rw [getD_set_ne _ _ _ _ _ h2, getD_set_ne _ _ _ _ _ h1]
        rfl

theorem entry_swapRows (M : Mat) (i m : Nat) (hi : i < M.length)
    (hm : m < M.length) (k j : Nat) :
    entry (swapRows M i m) k j = entry M (swapIdxFun i m k) j := by
  unfold entry
  rw [rowOf_swapRows M i m hi hm]

theorem SolA_swapRows (n : Nat) (M : Mat) (i m : Nat) (hlen : M.length = n)
    (hi : i < n) (hm : m < n) (x : Vec) :
    SolA n (swapRows M i m) x ↔ SolA n M x := by
  have hent : ∀ k j, entry (swapRows M i m) k j = entry M (swapIdxFun i m k) j :=
    entry_swapRows M i m (hlen ▸ hi) (hlen ▸ hm)
  constructor
  · intro h k hk
    have h1 := h (swapIdxFun i m k) (swapIdxFun_lt i m k n hi hm hk)
    rw [hent, swapIdxFun_invol] at h1
    rw [Finset.sum_congr rfl
      (fun j _ => by rw [hent, swapIdxFun_invol])] at h1
    exact h1
  · intro h k hk
    rw [hent, Finset.sum_congr rfl (fun j _ => by rw [hent])]
    exact h _ (swapIdxFun_lt i m k n hi hm hk)

theorem Inv_swapRows (n i m : Nat) (M : Mat) (hInv : Inv n i M)
    (hi : i < n) (him : i ≤ m) (hm : m < n) :
    Inv n i (swapRows M i m) := by
  obtain ⟨⟨hlen, hrows⟩, hcols⟩ := hInv
  have hrow : ∀ k, rowOf (swapRows M i m) k = rowOf M (swapIdxFun i m k) :=
    rowOf_swapRows M i m (hlen ▸ hi) (hlen ▸ hm)
  refine ⟨⟨by rw [length_swapRows]; exact hlen, ?_⟩, ?_⟩
  · intro k hk
    rw [hrow]
    exact hrows _ (swapIdxFun_lt i m k n hi hm hk)
  · intro j hj
    obtain ⟨hdiag, hoff⟩ := hcols j hj
    have hji : j ≠ i := by omega
    have hjm : j ≠ m := by omega
    constructor
    · show entry (swapRows M i m) j j = 1
      unfold entry
      rw [hrow, swapIdxFun, if_neg hji, if_neg hjm]
      exact hdiag
    · intro k hk hkj
      show entry (swapRows M i m) k j = 0
      unfold entry
      rw [hrow]
      refine hoff _ (swapIdxFun_lt i m k n hi hm hk) ?_
      intro he
      have : k = swapIdxFun i m j := by
        rw [← he, swapIdxFun_invol]
      rw [swapIdxFun, if_neg hji, if_neg hjm] at this
      exact hkj this

theorem length_scaleRowFrom (row : Vec) (i : Nat) (p : ℚ) (h : i ≤ row.length) :
    (scaleRowFrom row i p).length = row.length := by
  unfold scaleRowFrom
  simp
  omega

theorem getD_scaleRowFrom (row : Vec) (i : Nat) (p : ℚ) (j : Nat)
    (hj : j < row.length) :
    (scaleRowFrom row i p).getD j 0 =
      if j < i then row.getD j 0 else row.getD j 0 / p := by
  unfold scaleRowFrom
  by_cases hcase : j < i
  · rw [if_pos hcase]
    rw [getD_append_lt _ _ _ _ (by simp; omega)]
    exact getD_take_lt _ _ _ _ hcase
  · rw [if_neg hcase]
    have hi : i ≤ row.length := by omega
    have hlen : (row.take i).length = i := by simp; omega
    rw [getD_append_ge _ _ _ _ (by omega), hlen]
    rw [getD_map_lt _ _ _ 0 _ (by simp; omega)]
    rw [getD_drop]
    congr 2
    omega

theorem length_elimRow (pivN : Vec) (i : Nat) (row : Vec)
    (hi : i ≤ row.length) (hlen : pivN.length = row.length) :
    (elimRow pivN i row).length = row.length := by
  unfold elimRow
  simp [hlen]
  omega

theorem getD_elimRow (pivN : Vec) (i : Nat) (row : Vec) (j : Nat)
    (hj : j < row.length) (hlen : pivN.length = row.length) :
    (elimRow pivN i row).getD j 0 =
      if j < i then row.getD j 0
      else row.getD j 0 - row.getD i 0 * pivN.getD j 0 := by
  unfold elimRow
  by_cases hcase : j < i
  · rw [if_pos hcase]
    rw [getD_append_lt _ _ _ _ (by simp; omega)]
    exact getD_take_lt _ _ _ _ hcase
  · rw [if_neg hcase]
    have hi : i ≤ row.length := by omega
    have htake : (row.take i).length = i := by simp; omega
    have hdr : (row.drop i).length = row.length - i := by simp
    have hdp : (pivN.drop i).length = row.length - i := by simp [hlen]
    rw [getD_append_ge _ _ _ _ (by omega), htake]
    have h2 : j - i < (row.drop i).length := by omega
    have h3 : j - i < (pivN.drop i).length := by omega
    rw [getD_zipWith_lt _ _ _ _ 0 0 _ h2 h3]
    have hij : i + (j - i) = j := by omega
    rw [getD_drop, getD_drop, hij]

theorem length_mapIdxFrom {α : Type _} (f : Nat → α → α) (s : Nat)
    (l : List α) : (mapIdxFrom f s l).length = l.length := by
  induction l generalizing s with
  | nil => rfl
  | cons a t ih => simp [mapIdxFrom, ih]

theorem getD_mapIdxFrom {α : Type _} (f : Nat → α → α) (s : Nat) (l : List α)
    (k : Nat) (d : α) (hk : k < l.length) :
    (mapIdxFrom f s l).getD k d = f (s + k) (l.getD k d) := by
  induction l generalizing s k with
  | nil => simp at hk
  | cons a t ih =>
    cases k with
    | zero => simp [mapIdxFrom, List.getD]
    | succ j =>
      have := ih (s + 1) j (by simpa using hk)
      simp only [mapIdxFrom, List.getD_cons_succ]
      rw [this]
      congr 1
      omega

/-- One elimination step preserves the invariant (extending it to column `i`)
and does not change the solution set of the augmented system. -/
theorem elimStep_correct (n i : Nat) (aug aug' : Mat) (hin : i < n)
    (hInv : Inv n i aug) (hstep : elimStep aug i = some aug') :
    Inv n (i + 1) aug' ∧
      ∀ x : Vec, x.length = n → (SolA n aug x ↔ SolA n aug' x) := by
  have hlen : aug.length = n := hInv.1.1
  set m := pivotRow aug i with hmdef
  set aug1 := swapRows aug i m with haug1
  set pivN := scaleRowFrom (rowOf aug1 i) i (entry aug1 i i) with hpivNdef
  set target := mapIdxFrom
    (fun k row => if k = i then row else elimRow pivN i row) 0
    (aug1.set i pivN) with htarget
  have hstep' :
      (if |entry aug1 i i| < pivotEps then none else some target) = some aug' :=
    hstep
  by_cases hplt : |entry aug1 i i| < pivotEps
  · rw [if_pos hplt] at hstep'
    cases hstep'
  · rw [if_neg hplt] at hstep'
    injection hstep' with htgt
    subst htgt
    obtain ⟨him, hmlt, -⟩ := pivotRow_bounds aug i (by omega)
    have hmn : m < n := by omega
    have hInv1 : Inv n i aug1 := Inv_swapRows n i m aug hInv hin him hmn
    obtain ⟨⟨hlen1, hrows1⟩, hcols1⟩ := hInv1
    set p := entry aug1 i i with hpdef
    have hp0 : (0 : ℚ) < |p| := by
      have : pivotEps ≤ |p| := not_lt.mp hplt
      have heps : (0 : ℚ) < pivotEps := by norm_num [pivotEps]
      linarith
    have hpne : p ≠ 0 := by
      intro h
      rw [h, abs_zero] at hp0
      exact lt_irrefl 0 hp0
    have hrowi : (rowOf aug1 i).length = n + 1 := hrows1 i hin
    have hzero : ∀ j, j < i → (rowOf aug1 i).getD j 0 = 0 := by
      intro j hj
      exact (hcols1 j hj).2 i hin (by omega)
    have hpivN_len : pivN.length = n + 1 := by
      rw [hpivNdef, length_scaleRowFrom _ _ _ (by omega)]
      exact hrowi
    have hpivN : ∀ j, j ≤ n → pivN.getD j 0 = (rowOf aug1 i).getD j 0 / p := by
      intro j hj
      rw [hpivNdef, getD_scaleRowFrom _ _ _ _ (by omega)]
      split
      · rw [hzero j (by assumption), zero_div]
      · rfl
    have hpivN_i : pivN.getD i 0 = 1 := by
      rw [hpivN i (le_of_lt hin)]
      exact div_self hpne
    have hlen2 : (aug1.set i pivN).length = n := by
      rw [List.length_set]
      exact hlen1
    have hrow2_i : rowOf (aug1.set i pivN) i = pivN :=
      getD_set_self _ _ _ _ (by rw [hlen1]; exact hin)
    have hrow2_ne : ∀ k, k ≠ i → rowOf (aug1.set i pivN) k = rowOf aug1 k :=
      fun k hk => getD_set_ne _ _ _ _ _ hk
    have hlen' : target.length = n := by
      rw [htarget, length_mapIdxFrom]
      exact hlen2
    have hrow' : ∀ k, k < n → rowOf target k =
        if k = i then pivN else elimRow pivN i (rowOf aug1 k) := by
      intro k hk
      rw [htarget]
      show (mapIdxFrom _ 0 (aug1.set i pivN)).getD k [] = _
      rw [getD_mapIdxFrom _ _ _ _ _ (by rw [hlen2]; exact hk)]
      by_cases hki : k = i
      · simp only [Nat.zero_add, if_pos hki]
        subst hki
        exact hrow2_i
      · simp only [Nat.zero_add, if_neg hki]
        exact congrArg (elimRow pivN i) (hrow2_ne k hki)
    have hrows' : ∀ k, k < n → (rowOf target k).length = n + 1 := by
      intro k hk
      rw [hrow' k hk]
      split
      · exact hpivN_len
      · rw [length_elimRow _ _ _ (by rw [hrows1 k hk]; omega)
          (by rw [hpivN_len, hrows1 k hk])]
        exact hrows1 k hk
    have hentry_i : ∀ j, j ≤ n →
        entry target i j = (rowOf aug1 i).getD j 0 / p := by
      intro j hj
      unfold entry
      rw [hrow' i hin, if_pos rfl]
      exact hpivN j hj
    have hentry_ne : ∀ k, k < n → k ≠ i → ∀ j, j ≤ n →
        entry target k j = entry aug1 k j - entry aug1 k i * pivN.getD j 0 := by
      intro k hk hki j hj
      unfold entry
      rw [hrow' k hk, if_neg hki]
      rw [getD_elimRow _ _ _ _ (by rw [hrows1 k hk]; omega)
        (by rw [hpivN_len, hrows1 k hk])]
      split
      · have hpj : pivN.getD j 0 = 0 := by
          rw [hpivN j hj, hzero j (by assumption), zero_div]
        rw [hpj, mul_zero, sub_zero]
      · rfl
    refine ⟨⟨⟨hlen', hrows'⟩, ?_⟩, ?_⟩
    · -- the invariant columns, now including column i
      intro j hj
      by_cases hji : j = i
      · subst hji
        constructor
        · rw [hentry_i j (le_of_lt hin)]
          exact div_self hpne
        · intro k hk hki
          rw [hentry_ne k hk hki j (le_of_lt hin), hpivN_i, mul_one, sub_self]
      · have hji' : j < i := by omega
        obtain ⟨hdiag1, hoff1⟩ := hcols1 j hji'
        have hpj0 : pivN.getD j 0 = 0 := by
          rw [hpivN j (by omega), hzero j hji', zero_div]
        constructor
        · rw [hentry_ne j (by omega) hji j (by omega), hpj0, mul_zero, sub_zero]
          exact hdiag1
        · intro k hk hkj
          by_cases hki : k = i
          · subst hki
            rw [hentry_i j (by omega), hzero j hji', zero_div]
          · rw [hentry_ne k hk hki j (by omega), hpj0, mul_zero, sub_zero]
            exact hoff1 k hk hkj
    · -- solution-set preservation
      intro x hx
      rw [haug1] at *
      rw [← SolA_swapRows n aug i m hlen hin hmn x]
      -- notation for the two relevant sums
      have hsum_pivN :
          (∑ j in Finset.range n, pivN.getD j 0 * x.getD j 0) =
            (∑ j in Finset.range n,
              entry (swapRows aug i m) i j * x.getD j 0) / p := by
        rw [Finset.sum_div]
        refine Finset.sum_congr rfl ?_
        intro j hj
        have hjn : j ≤ n := le_of_lt (Finset.mem_range.mp hj)
        rw [hpivN j hjn]
        rw [div_mul_eq_mul_div]
        rfl
      have hpivot_iff :
          ((∑ j in Finset.range n, pivN.getD j 0 * x.getD j 0) = pivN.getD n 0)
            ↔ ((∑ j in Finset.range n,
                entry (swapRows aug i m) i j * x.getD j 0) =
              entry (swapRows aug i m) i n) := by
        rw [hsum_pivN, hpivN n le_rfl]
        constructor
        · intro h
          calc (∑ j in Finset.range n,
                entry (swapRows aug i m) i j * x.getD j 0)
              = (∑ j in Finset.range n,
                  entry (swapRows aug i m) i j * x.getD j 0) / p * p :=
                (div_mul_cancel₀ _ hpne).symm
            _ = (rowOf (swapRows aug i m) i).getD n 0 / p * p := by rw [h]
            _ = entry (swapRows aug i m) i n := div_mul_cancel₀ _ hpne
        · intro h
          rw [h]
          rfl
      have hrow_tgt_i :
          ∀ j, entry target i j = pivN.getD j 0 := by
        intro j
        unfold entry
        rw [hrow' i hin, if_pos rfl]
      have hsum_ne : ∀ k, k < n → k ≠ i →
          (∑ j in Finset.range n, entry target k j * x.getD j 0) =
            (∑ j in Finset.range n,
              entry (swapRows aug i m) k j * x.getD j 0) -
            entry (swapRows aug i m) k i *
              (∑ j in Finset.range n, pivN.getD j 0 * x.getD j 0) := by
        intro k hk hki
        rw [Finset.mul_sum, ← Finset.sum_sub_distrib]
        refine Finset.sum_congr rfl ?_
        intro j hj
        have hjn : j ≤ n := le_of_lt (Finset.mem_range.mp hj)
        rw [hentry_ne k hk hki j hjn]
        ring
      constructor
      · intro h1 k hk
        have hTi := h1 i hin
        have hT : (∑ j in Finset.range n, pivN.getD j 0 * x.getD j 0) =
            pivN.getD n 0 := hpivot_iff.mpr hTi
        by_cases hki : k = i
        · subst hki
          rw [Finset.sum_congr rfl (fun j _ => by rw [hrow_tgt_i]),
            hrow_tgt_i]
          exact hT
        · rw [hsum_ne k hk hki, hentry_ne k hk hki n le_rfl, hT, h1 k hk]
      · intro h2 k hk
        have hTc : (∑ j in Finset.range n, pivN.getD j 0 * x.getD j 0) =
            pivN.getD n 0 := by
          have := h2 i hin
          rwa [Finset.sum_congr rfl (fun j _ => by rw [hrow_tgt_i]),
            hrow_tgt_i] at this
        by_cases hki : k = i
        · subst hki
          exact hpivot_iff.mp hTc
        · have hck := h2 k hk
          rw [hsum_ne k hk hki, hentry_ne k hk hki n le_rfl, hTc] at hck
          exact sub_left_inj.mp hck

theorem elimLoop_correct (n : Nat) : ∀ (fuel i : Nat) (aug augF : Mat),
    i + fuel = n → Inv n i aug → elimLoop fuel i aug = some augF →
    Inv n n augF ∧
      ∀ x : Vec, x.length = n → (SolA n aug x ↔ SolA n augF x) := by
  intro fuel
  induction fuel with
  | zero =>
    intro i aug augF hsum hInv hloop
    have heq : aug = augF := by
      have h : (some aug : Option Mat) = some augF := hloop
      injection h
    subst heq
    have hin : i = n := by omega
    subst hin
    exact ⟨hInv, fun x _ => Iff.rfl⟩
  | succ f ih =>
    intro i aug augF hsum hInv hloop
    have hloop' : (match elimStep aug i with
        | none => none
        | some aug1 => elimLoop f (i + 1) aug1) = some augF := hloop
    cases hstep : elimStep aug i with
    | none =>
      rw [hstep] at hloop'
      cases hloop'
    | some aug1 =>
      rw [hstep] at hloop'
      have hin : i < n := by omega
      obtain ⟨hInv1, hiff1⟩ := elimStep_correct n i aug aug1 hin hInv hstep
      obtain ⟨hInvF, hiff2⟩ := ih (i + 1) aug1 augF (by omega) hInv1 hloop'
      exact ⟨hInvF, fun x hx => (hiff1 x hx).trans (hiff2 x hx)⟩

theorem elimLoop_eq_none_iff : ∀ (fuel i : Nat) (aug : Mat),
    elimLoop fuel i aug = none ↔
      ∃ t aug', t < fuel ∧ elimLoop t i aug = some aug' ∧
        elimStep aug' (i + t) = none := by
  intro fuel
  induction fuel with
  | zero =>
    intro i aug
    constructor
    · intro h
      cases h
    · rintro ⟨t, aug', ht, -, -⟩
      omega
  | succ f ih =>
    intro i aug
    constructor
    · intro h
      have h' : (match elimStep aug i with
          | none => none
          | some aug1 => elimLoop f (i + 1) aug1) = none := h
      cases hstep : elimStep aug i with
      | none =>
        refine ⟨0, aug, Nat.succ_pos f, rfl, ?_⟩
        rw [Nat.add_zero]
        exact hstep
      | some aug1 =>
        rw [hstep] at h'
        obtain ⟨t, aug', ht, hl, hs⟩ := (ih (i + 1) aug1).mp h'
        refine ⟨t + 1, aug', by omega, ?_, ?_⟩
        · show (match elimStep aug i with
            | none => none
            | some a => elimLoop t (i + 1) a) = some aug'
          rw [hstep]
          exact hl
        · rw [show i + (t + 1) = (i + 1) + t by omega]
          exact hs
    · rintro ⟨t, aug', ht, hl, hs⟩
      show (match elimStep aug i with
          | none => none
          | some a => elimLoop f (i + 1) a) = none
      cases hstep : elimStep aug i with
      | none => rfl
      | some aug1 =>
        cases t with
        | zero =>
          have heq : aug = aug' := by
            have h0 : (some aug : Option Mat) = some aug' := hl
            injection h0
          rw [Nat.add_zero] at hs
          rw [← heq, hstep] at hs
          cases hs
        | succ s =>
          have hl' : (match elimStep aug i with
              | none => none
              | some a => elimLoop s (i + 1) a) = some aug' := hl
          rw [hstep] at hl'
          apply (ih (i + 1) aug1).mpr
          refine ⟨s, aug', by omega, hl', ?_⟩
          rw [show (i + 1) + s = i + (s + 1) by omega]
          exact hs

theorem elimStep_eq_none_iff (aug : Mat) (i : Nat) :
    elimStep aug i = none ↔
      |entry (swapRows aug i (pivotRow aug i)) i i| < pivotEps := by
  simp only [elimStep]
  split
  · simp_all
  · simp_all

theorem getD_mem {α : Type _} (l : List α) (k : Nat) (d : α)
    (h : k < l.length) : l.getD k d ∈ l := by
  induction l generalizing k with
  | nil => simp at h
  | cons a t ih =>
    cases k with
    | zero => exact List.mem_cons_self _ _
    | succ j =>
      exact List.mem_cons_of_mem _ (ih j (by simpa using h))

theorem length_augmentedOf (A : Mat) (B : Vec) :
    (augmentedOf A B).length = min A.length B.length := by
  simp [augmentedOf]

theorem rowOf_augmentedOf (A : Mat) (B : Vec) (k : Nat)
    (hkA : k < A.length) (hkB : k < B.length) :
    rowOf (augmentedOf A B) k = rowOf A k ++ [B.getD k 0] := by
  unfold augmentedOf rowOf
  rw [getD_zipWith_lt _ _ _ _ [] 0 _ hkA hkB]

theorem Inv_augmentedOf (n : Nat) (A : Mat) (B : Vec) (hA : A.length = n)
    (hB : B.length = n) (hrows : ∀ k, k < n → (rowOf A k).length = n) :
    Inv n 0 (augmentedOf A B) := by
  refine ⟨⟨by rw [length_augmentedOf, hA, hB]; omega, ?_⟩, ?_⟩
  · intro k hk
    rw [rowOf_augmentedOf A B k (by omega) (by omega)]
    simp [hrows k hk]
  · intro j hj
    omega

theorem entry_augmentedOf_lt (n : Nat) (A : Mat) (B : Vec) (hA : A.length = n)
    (hB : B.length = n) (hrows : ∀ k, k < n → (rowOf A k).length = n)
    (k j : Nat) (hk : k < n) (hj : j < n) :
    entry (augmentedOf A B) k j = (rowOf A k).getD j 0 := by
  unfold entry
  rw [rowOf_augmentedOf A B k (by omega) (by omega)]
  exact getD_append_lt _ _ _ _ (by rw [hrows k hk]; exact hj)

theorem entry_augmentedOf_rhs (n : Nat) (A : Mat) (B : Vec) (hA : A.length = n)
    (hB : B.length = n) (hrows : ∀ k, k < n → (rowOf A k).length = n)
    (k : Nat) (hk : k < n) :
    entry (augmentedOf A B) k n = B.getD k 0 := by
  unfold entry
  rw [rowOf_augmentedOf A B k (by omega) (by omega)]
  rw [getD_append_ge _ _ _ _ (by rw [hrows k hk])]
  rw [hrows k hk]
  simp

theorem SolA_augmentedOf_iff (n : Nat) (A : Mat) (B : Vec) (x : Vec)
    (hA : A.length = n) (hB : B.length = n)
    (hrows : ∀ k, k < n → (rowOf A k).length = n) (hx : x.length = n) :
    SolA n (augmentedOf A B) x ↔ matVecMul A x = B := by
  have hmv : ∀ k, k < n → (matVecMul A x).getD k 0 = dotProd (rowOf A k) x := by
    intro k hk
    unfold matVecMul
    rw [getD_map_lt _ _ _ [] _ (by omega)]
    rfl
  have hdot : ∀ k, k < n → dotProd (rowOf A k) x =
      ∑ j in Finset.range n, (rowOf A k).getD j 0 * x.getD j 0 :=
    fun k hk => dotProd_eq_sum _ _ n (hrows k hk) hx
  constructor
  · intro h
    refine list_ext_getD _ _ (by unfold matVecMul; rw [List.length_map, hA, hB]) ?_
    intro k hk
    have hk' : k < n := by
      unfold matVecMul at hk
      rw [List.length_map, hA] at hk
      exact hk
    rw [hmv k hk', hdot k hk']
    have h1 := h k hk'
    rw [Finset.sum_congr rfl (fun j hj => by
        rw [entry_augmentedOf_lt n A B hA hB hrows k j hk'
          (Finset.mem_range.mp hj)]),
      entry_augmentedOf_rhs n A B hA hB hrows k hk'] at h1
    exact h1
  · intro h k hk
    rw [Finset.sum_congr rfl (fun j hj => by
        rw [entry_augmentedOf_lt n A B hA hB hrows k j hk
          (Finset.mem_range.mp hj)]),
      entry_augmentedOf_rhs n A B hA hB hrows k hk]
    rw [← hdot k hk, ← hmv k hk, h]

theorem final_sol (n : Nat) (augF : Mat) (hInv : Inv n n augF) :
    (augF.map (fun row => row.getD n 0)).length = n ∧
    SolA n augF (augF.map (fun row => row.getD n 0)) ∧
    ∀ y, y.length = n → SolA n augF y →
      y = augF.map (fun row => row.getD n 0) := by
  obtain ⟨⟨hlen, hrows⟩, hcols⟩ := hInv
  have hxlen : (augF.map (fun row => row.getD n 0)).length = n := by
    rw [List.length_map, hlen]
  have hxk : ∀ k, k < n →
      (augF.map (fun row => row.getD n 0)).getD k 0 = entry augF k n := by
    intro k hk
    rw [getD_map_lt _ _ _ [] _ (by rw [hlen]; exact hk)]
    rfl
  have hid : ∀ k j, k < n → j < n →
      entry augF k j = if j = k then 1 else 0 := by
    intro k j hk hj
    by_cases hjk : j = k
    · subst hjk
      rw [if_pos rfl]
      exact (hcols j hj).1
    · rw [if_neg hjk]
      exact (hcols j hj).2 k hk (fun h => hjk h.symm)
  have hsum : ∀ (y : Vec) (k : Nat), k < n →
      (∑ j in Finset.range n, entry augF k j * y.getD j 0) = y.getD k 0 := by
    intro y k hk
    rw [Finset.sum_congr rfl (fun j hj => by
      rw [hid k j hk (Finset.mem_range.mp hj), ite_mul, one_mul, zero_mul])]
    rw [Finset.sum_ite_eq' (Finset.range n) k (fun j => y.getD j 0)]
    rw [if_pos (Finset.mem_range.mpr hk)]
  refine ⟨hxlen, ?_, ?_⟩
  · intro k hk
    rw [hsum _ k hk, hxk k hk]
  · intro y hy hSol
    refine list_ext_getD y _ (hy.trans hxlen.symm) ?_
    intro k hk
    have hk' : k < n := by rw [hy] at hk; exact hk
    rw [← hsum y k hk', hSol k hk', hxk k hk']

theorem gaussJordan_eq (A : Mat) (B : Vec) :
    gaussJordan A B =
      if A.length ≠ B.length then none
      else match elimLoop A.length 0 (augmentedOf A B) with
        | none => none
        | some aug => some (aug.map (fun row => row.getD A.length 0)) := rfl

theorem gaussJordan_none_of_length (A : Mat) (B : Vec)
    (h : A.length ≠ B.length) : gaussJordan A B = none := by
  rw [gaussJordan_eq, if_pos h]

theorem gaussJordan_some_inv (A : Mat) (B : Vec) (x : Vec)
    (h : gaussJordan A B = some x) :
    A.length = B.length ∧
      ∃ augF, elimLoop A.length 0 (augmentedOf A B) = some augF ∧
        x = augF.map (fun row => row.getD A.length 0) := by
  by_cases hlen : A.length = B.length
  · rw [gaussJordan_eq, if_neg (not_not_intro hlen)] at h
    cases hE : elimLoop A.length 0 (augmentedOf A B) with
    | none =>
      rw [hE] at h
      cases h
    | some augF =>
      rw [hE] at h
      injection h with hx
      exact ⟨hlen, augF, rfl, hx.symm⟩
  · rw [gaussJordan_none_of_length A B hlen] at h
    cases h

theorem gaussJordan_none_iff (A : Mat) (B : Vec) (hlen : A.length = B.length) :
    gaussJordan A B = none ↔
      elimLoop A.length 0 (augmentedOf A B) = none := by
  rw [gaussJordan_eq, if_neg (not_not_intro hlen)]
  cases hE : elimLoop A.length 0 (augmentedOf A B) with
  | none => simp
  | some augF => simp

theorem gaussJordan_solves (n : Nat) (A : Mat) (B : Vec) (x : Vec)
    (hA : A.length = n) (hB : B.length = n)
    (hrows : ∀ row ∈ A, row.length = n)
    (h : gaussJordan A B = some x) :
    x.length = n ∧ matVecMul A x = B ∧
      ∀ y, y.length = n → matVecMul A y = B → y = x := by
  obtain ⟨hlen, augF, hloop, hx⟩ := gaussJordan_some_inv A B x h
  rw [hA] at hloop hx
  have hrows' : ∀ k, k < n → (rowOf A k).length = n := by
    intro k hk
    exact hrows _ (getD_mem A k [] (by omega))
  have hInv0 := Inv_augmentedOf n A B hA hB hrows'
  obtain ⟨hInvF, hiff⟩ :=
    elimLoop_correct n n 0 (augmentedOf A B) augF (by omega) hInv0 hloop
  obtain ⟨hxlen, hSolF, huniq⟩ := final_sol n augF hInvF
  subst hx
  refine ⟨hxlen, ?_, ?_⟩
  · have hSol0 : SolA n (augmentedOf A B) (augF.map (fun row => row.getD n 0)) :=
      (hiff _ hxlen).mpr hSolF
    exact (SolA_augmentedOf_iff n A B _ hA hB hrows' hxlen).mp hSol0
  · intro y hy hmv
    have hSol0y : SolA n (augmentedOf A B) y :=
      (SolA_augmentedOf_iff n A B y hA hB hrows' hy).mpr hmv
    exact huniq y hy ((hiff y hy).mp hSol0y)

unseal Rat.mul Rat.add Rat.sub Rat.inv in
/-- C2: `gaussJordan(A, B)` performs Gauss-Jordan elimination with partial
pivoting (at each elimination step it swaps into pivot position the remaining
row whose entry in the current pivot column has the largest absolute value) and
returns null exactly when A and B have different row counts or some pivot's
absolute value after the swap is below 1e-10; in all other cases it returns the
unique solution vector x of A*x = B — e.g. A=[[2,1],[1,3]], B=[3,5] yields
x = [0.8, 1.4], while the singular system A=[[1,2],[2,4]] yields null. -/
theorem claim_C2_gaussJordan :
    (∀ A B, A.length ≠ B.length → gaussJordan A B = none) ∧
    (∀ aug i, i < aug.length →
      i ≤ pivotRow aug i ∧ pivotRow aug i < aug.length ∧
        ∀ k, i ≤ k → k < aug.length →
          |entry aug k i| ≤ |entry aug (pivotRow aug i) i|) ∧
    (∀ n A B x, A.length = n → B.length = n →
      (∀ row ∈ A, row.length = n) → gaussJordan A B = some x →
      x.length = n ∧ matVecMul A x = B ∧
        ∀ y, y.length = n → matVecMul A y = B → y = x) ∧
    (∀ A B, A.length = B.length →
      (gaussJordan A B = none ↔
        ∃ t aug', t < A.length ∧
          elimLoop t 0 (augmentedOf A B) = some aug' ∧
          |entry (swapRows aug' t (pivotRow aug' t)) t t| < pivotEps)) ∧
    gaussJordan [[2, 1], [1, 3]] [3, 5] = some [4/5, 7/5] ∧
    gaussJordan [[1, 2], [2, 4]] [3, 5] = none := by
  refine ⟨gaussJordan_none_of_length, pivotRow_bounds, gaussJordan_solves,
    ?_, by decide, by decide⟩
  intro A B hlen
  rw [gaussJordan_none_iff A B hlen, elimLoop_eq_none_iff]
  constructor
  · rintro ⟨t, aug', ht, hl, hs⟩
    rw [Nat.zero_add] at hs
    exact ⟨t, aug', ht, hl, (elimStep_eq_none_iff aug' t).mp hs⟩
  · rintro ⟨t, aug', ht, hl, hs⟩
    refine ⟨t, aug', ht, hl, ?_⟩
    rw [Nat.zero_add]
    exact (elimStep_eq_none_iff aug' t).mpr hs

unseal Rat.mul Rat.add Rat.sub Rat.inv in
/-- Witness for C2: the solver-correctness conjunct applied to the concrete
well-conditioned system of the claim. -/
theorem claim_C2_gaussJordan_witness :
    ([4/5, 7/5] : Vec).length = 2 ∧
      matVecMul [[2, 1], [1, 3]] [4/5, 7/5] = [3, 5] := by
  have h := claim_C2_gaussJordan.2.2.1 2 [[2, 1], [1, 3]] [3, 5] [4/5, 7/5]
    rfl rfl (by decide) (by decide)
  exact ⟨h.1, h.2.1⟩

/-! ### Gauss-Jordan over an explicit store of rows (frame property)

JS arrays are heap objects.  `gaussJordan` receives `A` as an array of row
references and `B` as a reference to a numeric array; it builds the augmented
matrix from freshly allocated copies (`[...row, B[i]]`), so the elimination's
in-place writes never touch the caller's rows.  The store maps a reference
(an index) to the row stored there; `gaussJordanS` is the store-level rendering
of the same source function. -/

abbrev Store := List Vec

def readRow (σ : Store) (r : Nat) : Vec := σ.getD r []

def writeRow (σ : Store) (r : Nat) (v : Vec) : Store := σ.set r v

/-- Pivot selection of the source, reading rows through references. -/
def pivotRowS (σ : Store) (refs : List Nat) (i : Nat) : Nat :=
  (List.range' (i + 1) (refs.length - (i + 1))).foldl
    (fun maxRow k =>
      if |(readRow σ (refs.getD k 0)).getD i 0| >
          |(readRow σ (refs.getD maxRow 0)).getD i 0| then k else maxRow) i

/-- The row swap mutates the (freshly built) `augmented` array of references,
not any row. -/
def swapIdx (refs : List Nat) (i j : Nat) : List Nat :=
  if i = j then refs else (refs.set i (refs.getD j 0)).set j (refs.getD i 0)

/-- One outer-loop iteration at the store level: normalization and elimination
write through the references held in `augmented`. -/
def elimStepS (σ : Store) (refs : List Nat) (i : Nat) :
    Option (Store × List Nat) :=
  let refs1 := swapIdx refs i (pivotRowS σ refs i)
  let ri := refs1.getD i 0
  if |(readRow σ ri).getD i 0| < pivotEps then none
  else
    let pivN := scaleRowFrom (readRow σ ri) i ((readRow σ ri).getD i 0)
    some ((List.range refs1.length).foldl
      (fun σ' k =>
        if k = i then σ'
        else writeRow σ' (refs1.getD k 0)
          (elimRow pivN i (readRow σ' (refs1.getD k 0)))) (writeRow σ ri pivN),
      refs1)

def elimLoopS : Nat → Nat → Store → List Nat → Store × Option (List Nat)
  | 0, _, σ, refs => (σ, some refs)
  | fuel + 1, i, σ, refs =>
    match elimStepS σ refs i with
    | none => (σ, none)
    | some (σ', refs') => elimLoopS fuel (i + 1) σ' refs'

/-- `gaussJordan(A, B)` at the store level: `A` is an array of row references,
`B` a reference to the constants array; the augmented rows are fresh
allocations appended to the store. -/
def gaussJordanS (σ : Store) (aRefs : List Nat) (bRef : Nat) :
    Store × Option Vec :=
  if aRefs.length ≠ (readRow σ bRef).length then (σ, none)
  else
    let n := aRefs.length
    let σ1 := σ ++ List.zipWith (fun r b => readRow σ r ++ [b]) aRefs
      (readRow σ bRef)
    match elimLoopS n 0 σ1 (List.range' σ.length n) with
    | (σ2, none) => (σ2, none)
    | (σ2, some refs) =>
        (σ2, some (refs.map (fun r => (readRow σ2 r).getD n 0)))

theorem length_swapIdx (refs : List Nat) (i j : Nat) :
    (swapIdx refs i j).length = refs.length := by
  unfold swapIdx
  split
  · rfl
  · simp

theorem mem_swapIdx_subset (refs : List Nat) (i j : Nat)
    (hi : i < refs.length) (hj : j < refs.length) :
    ∀ x ∈ swapIdx refs i j, x ∈ refs := by
  intro x hx
  unfold swapIdx at hx
  split at hx
  · exact hx
  · rcases List.mem_or_eq_of_mem_set hx with hx1 | hx1
    · rcases List.mem_or_eq_of_mem_set hx1 with hx2 | hx2
      · exact hx2
      · exact hx2 ▸ getD_mem _ _ _ hj
    · exact hx1 ▸ getD_mem _ _ _ hi

theorem pivotRowS_bounds (σ : Store) (refs : List Nat) (i : Nat)
    (h : i < refs.length) :
    i ≤ pivotRowS σ refs i ∧ pivotRowS σ refs i < refs.length := by
  have hfold := foldl_argmax
    (fun k => |(readRow σ (refs.getD k 0)).getD i 0|)
    (List.range' (i + 1) (refs.length - (i + 1))) i
  obtain ⟨hmem, -, -⟩ := hfold
  rcases hmem with hm | hm
  · rw [pivotRowS, hm]
    omega
  · have := List.mem_range'_1.mp hm
    rw [pivotRowS]
    omega

theorem readRow_writeRow_ne (σ : Store) (r s : Nat) (v : Vec) (h : s ≠ r) :
    readRow (writeRow σ r v) s = readRow σ s :=
  getD_set_ne _ _ _ _ _ h

theorem elimFold_frame (refs1 : List Nat) (i : Nat) (pivN : Vec) :
    ∀ (l : List Nat) (σ0 : Store) (r : Nat),
      (∀ k ∈ l, k < refs1.length) → r ∉ refs1 →
      readRow (l.foldl (fun σ' k =>
        if k = i then σ'
        else writeRow σ' (refs1.getD k 0)
          (elimRow pivN i (readRow σ' (refs1.getD k 0)))) σ0) r =
      readRow σ0 r := by
  intro l
  induction l with
  | nil =>
    intro σ0 r _ _
    rfl
  | cons a t ih =>
    intro σ0 r hbound hr
    simp only [List.foldl_cons]
    rw [ih _ r (fun k hk => hbound k (List.mem_cons_of_mem _ hk)) hr]
    split
    · rfl
    · refine readRow_writeRow_ne _ _ _ _ ?_
      intro he
      exact hr (he ▸ getD_mem _ _ _ (hbound a (List.mem_cons_self _ _)))

theorem elimStepS_frame (σ : Store) (refs : List Nat) (i : Nat) (σ' : Store)
    (refs' : List Nat) (hi : i < refs.length)
    (hstep : elimStepS σ refs i = some (σ', refs')) :
    refs'.length = refs.length ∧ (∀ x ∈ refs', x ∈ refs) ∧
      ∀ r, r ∉ refs → readRow σ' r = readRow σ r := by
  obtain ⟨hpl, hpu⟩ := pivotRowS_bounds σ refs i hi
  set m := pivotRowS σ refs i with hm
  set refs1 := swapIdx refs i m with hrefs1
  set ri := refs1.getD i 0 with hri
  set pivN := scaleRowFrom (readRow σ ri) i ((readRow σ ri).getD i 0)
    with hpivN
  have hstep' :
      (if |(readRow σ ri).getD i 0| < pivotEps then none
       else some ((List.range refs1.length).foldl
        (fun σ' k =>
          if k = i then σ'
          else writeRow σ' (refs1.getD k 0)
            (elimRow pivN i (readRow σ' (refs1.getD k 0))))
        (writeRow σ ri pivN), refs1)) = some (σ', refs') := hstep
  by_cases hc : |(readRow σ ri).getD i 0| < pivotEps
  · rw [if_pos hc] at hstep'
    cases hstep'
  · rw [if_neg hc] at hstep'
    injection hstep' with hpair
    have hsub : ∀ x ∈ refs1, x ∈ refs := mem_swapIdx_subset refs i m hi hpu
    have hlen1 : refs1.length = refs.length := length_swapIdx refs i m
    have hσ' : σ' = (List.range refs1.length).foldl
        (fun σ' k =>
          if k = i then σ'
          else writeRow σ' (refs1.getD k 0)
            (elimRow pivN i (readRow σ' (refs1.getD k 0))))
        (writeRow σ ri pivN) := (congrArg Prod.fst hpair).symm
    have hrefs'eq : refs' = refs1 := (congrArg Prod.snd hpair).symm
    subst hσ'
    subst hrefs'eq
    refine ⟨hlen1, hsub, ?_⟩
    intro r hr
    have hr1 : r ∉ refs1 := fun h => hr (hsub r h)
    rw [elimFold_frame refs1 i pivN (List.range refs1.length) _ r
      (fun k hk => List.mem_range.mp hk) hr1]
    refine readRow_writeRow_ne _ _ _ _ ?_
    intro he
    exact hr1 (he ▸ getD_mem _ _ _ (by omega))

theorem elimLoopS_frame : ∀ (fuel i : Nat) (σ : Store) (refs : List Nat),
    i + fuel ≤ refs.length →
    ∀ r, r ∉ refs → readRow (elimLoopS fuel i σ refs).1 r = readRow σ r := by
  intro fuel
  induction fuel with
  | zero =>
    intro i σ refs _ r _
    rfl
  | succ f ih =>
    intro i σ refs hle r hr
    show readRow (match elimStepS σ refs i with
      | none => (σ, none)
      | some (σ', refs') => elimLoopS f (i + 1) σ' refs').1 r = readRow σ r
    cases hstep : elimStepS σ refs i with
    | none => rfl
    | some pr =>
      obtain ⟨σ', refs'⟩ := pr
      obtain ⟨hlen', hsub', hframe'⟩ :=
        elimStepS_frame σ refs i σ' refs' (by omega) hstep
      have hr' : r ∉ refs' := fun h => hr (hsub' r h)
      rw [ih (i + 1) σ' refs' (by omega) r hr']
      exact hframe' r hr

theorem gaussJordanS_eq (σ : Store) (aRefs : List Nat) (bRef : Nat) :
    gaussJordanS σ aRefs bRef =
      if aRefs.length ≠ (readRow σ bRef).length then (σ, none)
      else match elimLoopS aRefs.length 0
          (σ ++ List.zipWith (fun r b => readRow σ r ++ [b]) aRefs
            (readRow σ bRef))
          (List.range' σ.length aRefs.length) with
        | (σ2, none) => (σ2, none)
        | (σ2, some refs) =>
            (σ2, some (refs.map (fun r =>
              (readRow σ2 r).getD aRefs.length 0))) := rfl

theorem gaussJordanS_frame (σ : Store) (aRefs : List Nat) (bRef : Nat)
    (r : Nat) (hr : r < σ.length) :
    readRow (gaussJordanS σ aRefs bRef).1 r = readRow σ r := by
  rw [gaussJordanS_eq]
  by_cases hlen : aRefs.length ≠ (readRow σ bRef).length
  · rw [if_pos hlen]
  · rw [if_neg hlen]
    set σ1 := σ ++ List.zipWith (fun r b => readRow σ r ++ [b]) aRefs
      (readRow σ bRef) with hσ1
    set fresh := List.range' σ.length aRefs.length with hfresh
    have hnot : r ∉ fresh := by
      intro h
      have := List.mem_range'_1.mp h
      omega
    have hlenf : (0 : Nat) + aRefs.length ≤ fresh.length := by
      rw [hfresh, List.length_range']
      omega
    have hframe := elimLoopS_frame aRefs.length 0 σ1 fresh hlenf r hnot
    have hσ1r : readRow σ1 r = readRow σ r := getD_append_lt _ _ _ _ hr
    cases hE : elimLoopS aRefs.length 0 σ1 fresh with
    | mk σ2 res =>
      cases res with
      | none =>
        have : readRow σ2 r = readRow σ r := by
          rw [← hσ1r, ← hframe, hE]
        exact this
      | some refs =>
        have : readRow σ2 r = readRow σ r := by
          rw [← hσ1r, ← hframe, hE]
        exact this

/-- C10: `gaussJordan(A, B)` never mutates its arguments: the caller's
coefficient rows (reachable through `aRefs`) and right-hand-side vector
(at `bRef`) hold the same values after the call as before, whether the call
returns a solution or fails with null, because elimination operates on a
freshly copied augmented matrix. -/
theorem claim_C10_gaussJordan_no_mutation (σ : Store) (aRefs : List Nat)
    (bRef : Nat) (hA : ∀ r ∈ aRefs, r < σ.length) (hB : bRef < σ.length) :
    (aRefs.map (fun r => readRow (gaussJordanS σ aRefs bRef).1 r) =
        aRefs.map (fun r => readRow σ r)) ∧
      readRow (gaussJordanS σ aRefs bRef).1 bRef = readRow σ bRef := by
  constructor
  · refine List.map_congr_left ?_
    intro r hr
    exact gaussJordanS_frame σ aRefs bRef r (hA r hr)
  · exact gaussJordanS_frame σ aRefs bRef bRef hB

unseal Rat.mul Rat.add Rat.sub Rat.inv in
/-- Witness for C10 at a concrete store: `A = [[2,1],[1,3]]` stored at
references 0 and 1, `B = [3,5]` stored at reference 2. -/
theorem claim_C10_gaussJordan_no_mutation_witness :
    (([0, 1] : List Nat).map
        (fun r => readRow (gaussJordanS [[2, 1], [1, 3], [3, 5]] [0, 1] 2).1 r) =
      ([0, 1] : List Nat).map (fun r => readRow [[2, 1], [1, 3], [3, 5]] r)) ∧
    readRow (gaussJordanS [[2, 1], [1, 3], [3, 5]] [0, 1] 2).1 2 =
      readRow [[2, 1], [1, 3], [3, 5]] 2 :=
  claim_C10_gaussJordan_no_mutation [[2, 1], [1, 3], [3, 5]] [0, 1] 2
    (by decide) (by decide)

/-! ### The affine transform estimator (math-utils.js)

`lonToWebMercatorX` is linear and embedded exactly.  `latToWebMercatorY`
(`Math.log`/`Math.tan`) and `webMercatorYToLat` (`Math.atan`/`Math.exp`) are
transcendental; the estimator only plumbs their values through, so they are
abstract `ℚ → ℚ` parameters of every definition that uses them. -/

/-- GPS point as produced by gps-data.js (`pointId`, `lat`, `lng`). -/
structure GpsPoint where
  pointId : String
  lat : ℚ
  lng : ℚ
  deriving Repr, DecidableEq

/-- A record of a loaded point JSON entry: identifier fields (absent = JS
`undefined`/falsy) and image pixel coordinates. -/
structure PointJson where
  Id : Option String
  id : Option String
  name : Option String
  imageX : ℚ
  imageY : ℚ
  deriving Repr, DecidableEq

/-- A matched control-point pair as built by `matchPointJsonWithGPS`. -/
structure ControlPoint where
  pointJsonId : String
  pointJson : PointJson
  gpsPoint : GpsPoint
  deriving Repr, DecidableEq

def cpDefault : ControlPoint :=
  ⟨"", ⟨none, none, none, 0, 0⟩, ⟨"", 0, 0⟩⟩

/-- The six affine coefficients `{a, b, c, d, e, f}`. -/
structure TransCoeffs where
  a : ℚ
  b : ℚ
  c : ℚ
  d : ℚ
  e : ℚ
  f : ℚ
  deriving Repr, DecidableEq

/-- `WEB_MERCATOR_MAX = 20037508.34` of math-utils.js. -/
def WEB_MERCATOR_MAX : ℚ := 20037508.34

/-- `lonToWebMercatorX(lon) = lon * WEB_MERCATOR_MAX / 180`. -/
def lonToWebMercatorX (lon : ℚ) : ℚ := lon * WEB_MERCATOR_MAX / 180

/-- `webMercatorXToLon(x) = x * 180 / WEB_MERCATOR_MAX`. -/
def webMercatorXToLon (x : ℚ) : ℚ := x * 180 / WEB_MERCATOR_MAX

/-- `transpose(matrix)`: null on an empty matrix (the JS guard
`!matrix || !matrix.length || !matrix[0]`), otherwise
`matrix[0].map((_, c) => matrix.map(row => row[c]))`. -/
def transpose (matrix : Mat) : Option Mat :=
  match matrix with
  | [] => none
  | r0 :: _ =>
    some ((List.range r0.length).map (fun c =>
      matrix.map (fun row => row.getD c 0)))

/-- `multiply(a, b)`: null when either factor is empty or the inner dimensions
mismatch, otherwise the triple-loop product. -/
def multiply (a b : Mat) : Option Mat :=
  if a.length = 0 ∨ b.length = 0 ∨ (a.getD 0 []).length ≠ b.length then none
  else
    some (a.map (fun row =>
      (List.range (b.getD 0 []).length).map (fun j =>
        ∑ k in Finset.range b.length, row.getD k 0 * entry b k j)))

/-- `multiplyVector(matrix, vector)`: an empty matrix makes the JS guard
`matrix[0].length` throw (the caller catches it as a failure), a column-count
mismatch returns null, otherwise the row-by-row dot product. -/
def multiplyVector (matrix : Mat) (vector : Vec) : Option Vec :=
  if matrix.length = 0 then none
  else if (matrix.getD 0 []).length ≠ vector.length then none
  else some (matrix.map (fun row => dotProd row vector))

/-- The design matrix of `calculateAffineTransformation`: control point `i`
fills rows `2i` (X equation) and `2i+1` (Y equation). -/
def designMatrix (controlPoints : List ControlPoint) : Mat :=
  controlPoints.flatMap (fun cp =>
    [[cp.pointJson.imageX, cp.pointJson.imageY, 1, 0, 0, 0],
     [0, 0, 0, cp.pointJson.imageX, cp.pointJson.imageY, 1]])

/-- The target vector of `calculateAffineTransformation`: projected GPS X at
index `2i`, projected GPS Y at index `2i+1`. -/
def targetVector (latToWebMercatorY : ℚ → ℚ)
    (controlPoints : List ControlPoint) : Vec :=
  controlPoints.flatMap (fun cp =>
    [lonToWebMercatorX cp.gpsPoint.lng, latToWebMercatorY cp.gpsPoint.lat])

/-- `{a: params[0], ..., f: params[5]}`. -/
def extractCoeffs (params : Vec) : TransCoeffs :=
  ⟨params.getD 0 0, params.getD 1 0, params.getD 2 0,
   params.getD 3 0, params.getD 4 0, params.getD 5 0⟩

/-- `calculateAffineTransformation(controlPoints)` of math-utils.js. -/
def calculateAffineTransformation (latToWebMercatorY : ℚ → ℚ)
    (controlPoints : List ControlPoint) : Option TransCoeffs :=
  let A := designMatrix controlPoints
  let B := targetVector latToWebMercatorY controlPoints
  match transpose A with
  | none => none
  | some At =>
    match multiply At A with
    | none => none
    | some AtA =>
      match multiplyVector At B with
      | none => none
      | some AtB =>
        match gaussJordan AtA AtB with
        | none => none
        | some params => some (extractCoeffs params)

theorem designMatrix_length (cps : List ControlPoint) :
    (designMatrix cps).length = 2 * cps.length := by
  induction cps with
  | nil => rfl
  | cons c t ih =>
    simp only [designMatrix, List.flatMap_cons] at *
    simp [ih]
    omega

theorem targetVector_length (latToY : ℚ → ℚ) (cps : List ControlPoint) :
    (targetVector latToY cps).length = 2 * cps.length := by
  induction cps with
  | nil => rfl
  | cons c t ih =>
    simp only [targetVector, List.flatMap_cons] at *
    simp [ih]
    omega

theorem designMatrix_rows (cps : List ControlPoint) :
    ∀ row ∈ designMatrix cps, row.length = 6 := by
  induction cps with
  | nil => intro row h; cases h
  | cons c t ih =>
    intro row h
    simp only [designMatrix, List.flatMap_cons] at h
    rcases List.mem_append.mp h with h1 | h1
    · have h2 : row = [c.pointJson.imageX, c.pointJson.imageY, 1, 0, 0, 0] ∨
          row = [0, 0, 0, c.pointJson.imageX, c.pointJson.imageY, 1] := by
        simpa using h1
      rcases h2 with h2 | h2 <;> rw [h2] <;> rfl
    · exact ih row h1

theorem rowOf_designMatrix (cps : List ControlPoint) (i : Nat)
    (h : i < cps.length) :
    rowOf (designMatrix cps) (2 * i) =
      [(cps.getD i cpDefault).pointJson.imageX,
       (cps.getD i cpDefault).pointJson.imageY, 1, 0, 0, 0] ∧
    rowOf (designMatrix cps) (2 * i + 1) =
      [0, 0, 0, (cps.getD i cpDefault).pointJson.imageX,
       (cps.getD i cpDefault).pointJson.imageY, 1] := by
  induction cps generalizing i with
  | nil => simp at h
  | cons c t ih =>
    cases i with
    | zero => exact ⟨rfl, rfl⟩
    | succ j =>
      have h' : j < t.length := by simpa using h
      obtain ⟨ih1, ih2⟩ := ih j h'
      have he1 : 2 * (j + 1) = (2 * j) + 1 + 1 := by omega
      have he2 : 2 * (j + 1) + 1 = (2 * j + 1) + 1 + 1 := by omega
      constructor
      · show (designMatrix (c :: t)).getD (2 * (j + 1)) [] = _
        rw [he1]
        simp only [designMatrix, List.flatMap_cons, List.cons_append,
          List.nil_append, List.getD_cons_succ]
        exact ih1
      · show (designMatrix (c :: t)).getD (2 * (j + 1) + 1) [] = _
        rw [he2]
        simp only [designMatrix, List.flatMap_cons, List.cons_append,
          List.nil_append, List.getD_cons_succ]
        exact ih2

theorem targetVector_getD (latToY : ℚ → ℚ) (cps : List ControlPoint) (i : Nat)
    (h : i < cps.length) :
    (targetVector latToY cps).getD (2 * i) 0 =
      lonToWebMercatorX (cps.getD i cpDefault).gpsPoint.lng ∧
    (targetVector latToY cps).getD (2 * i + 1) 0 =
      latToY (cps.getD i cpDefault).gpsPoint.lat := by
  induction cps generalizing i with
  | nil => simp at h
  | cons c t ih =>
    cases i with
    | zero => exact ⟨rfl, rfl⟩
    | succ j =>
      have h' : j < t.length := by simpa using h
      obtain ⟨ih1, ih2⟩ := ih j h'
      have he1 : 2 * (j + 1) = (2 * j) + 1 + 1 := by omega
      have he2 : 2 * (j + 1) + 1 = (2 * j + 1) + 1 + 1 := by omega
      constructor
      · rw [he1]
        simp only [targetVector, List.flatMap_cons, List.cons_append,
          List.nil_append, List.getD_cons_succ]
        exact ih1
      · rw [he2]
        simp only [targetVector, List.flatMap_cons, List.cons_append,
          List.nil_append, List.getD_cons_succ]
        exact ih2

/-- C1: for every list of `n ≥ 3` control points the estimator builds the
`2n × 6` design matrix and `2n × 1` target vector in which control point `i`
contributes the row `[imageX, imageY, 1, 0, 0, 0]` with target
`lonToWebMercatorX(lng)` and the row `[0, 0, 0, imageX, imageY, 1]` with
target `latToWebMercatorY(lat)`; it then solves the normal equations
`(AᵗA)x = AᵗB` with the Gauss-Jordan solver and returns the six coefficients
in order from the solution vector on success, null when the solver reports
near-singularity. -/
theorem claim_C1_affine_estimator (latToWebMercatorY : ℚ → ℚ)
    (controlPoints : List ControlPoint) (h3 : 3 ≤ controlPoints.length) :
    ((designMatrix controlPoints).length = 2 * controlPoints.length ∧
      (targetVector latToWebMercatorY controlPoints).length =
        2 * controlPoints.length ∧
      ∀ row ∈ designMatrix controlPoints, row.length = 6) ∧
    (∀ i, i < controlPoints.length →
      rowOf (designMatrix controlPoints) (2 * i) =
        [(controlPoints.getD i cpDefault).pointJson.imageX,
         (controlPoints.getD i cpDefault).pointJson.imageY, 1, 0, 0, 0] ∧
      (targetVector latToWebMercatorY controlPoints).getD (2 * i) 0 =
        lonToWebMercatorX (controlPoints.getD i cpDefault).gpsPoint.lng ∧
      rowOf (designMatrix controlPoints) (2 * i + 1) =
        [0, 0, 0, (controlPoints.getD i cpDefault).pointJson.imageX,
         (controlPoints.getD i cpDefault).pointJson.imageY, 1] ∧
      (targetVector latToWebMercatorY controlPoints).getD (2 * i + 1) 0 =
        latToWebMercatorY (controlPoints.getD i cpDefault).gpsPoint.lat) ∧
    (∃ At AtA AtB,
      transpose (designMatrix controlPoints) = some At ∧
      multiply At (designMatrix controlPoints) = some AtA ∧
      multiplyVector At (targetVector latToWebMercatorY controlPoints) =
        some AtB ∧
      calculateAffineTransformation latToWebMercatorY controlPoints =
        Option.map extractCoeffs (gaussJordan AtA AtB)) := by
  set A := designMatrix controlPoints with hAdef
  set B := targetVector latToWebMercatorY controlPoints with hBdef
  have hAlen : A.length = 2 * controlPoints.length :=
    designMatrix_length controlPoints
  have hBlen : B.length = 2 * controlPoints.length :=
    targetVector_length latToWebMercatorY controlPoints
  refine ⟨⟨hAlen, hBlen, designMatrix_rows controlPoints⟩, ?_, ?_⟩
  · intro i hi
    obtain ⟨hd1, hd2⟩ := rowOf_designMatrix controlPoints i hi
    obtain ⟨ht1, ht2⟩ := targetVector_getD latToWebMercatorY controlPoints i hi
    exact ⟨hd1, ht1, hd2, ht2⟩
  · have hApos : 0 < A.length := by omega
    obtain ⟨r0, tl, hA⟩ := List.exists_cons_of_ne_nil
      (fun h => by rw [h] at hApos; simp at hApos : A ≠ [])
    have hrow0 := (rowOf_designMatrix controlPoints 0 (by omega)).1
    have hr0 : r0 = rowOf A 0 := by rw [hA]; rfl
    have hr0len : r0.length = 6 := by
      rw [hr0, hAdef, hrow0]
      rfl
    set At := (List.range r0.length).map (fun c =>
      (r0 :: tl).map (fun row => row.getD c 0)) with hAtdef
    have htrans : transpose A = some At := by
      rw [hA]
      rfl
    have hAtlen : At.length = 6 := by
      rw [hAtdef, List.length_map, List.length_range, hr0len]
    have hAt0 : (At.getD 0 []).length = A.length := by
      rw [hAtdef]
      rw [getD_map_lt _ _ _ 0 _ (by rw [List.length_range, hr0len]; omega)]
      rw [List.length_map, ← hA]
    have hguardA : ¬(At.length = 0 ∨ A.length = 0 ∨
        (At.getD 0 []).length ≠ A.length) := by
      push_neg
      exact ⟨by omega, by omega, by rw [hAt0]⟩
    obtain ⟨AtA, hmulAtA⟩ : ∃ AtA, multiply At A = some AtA := by
      unfold multiply
      rw [if_neg hguardA]
      exact ⟨_, rfl⟩
    obtain ⟨AtB, hmulvAtB⟩ : ∃ AtB, multiplyVector At B = some AtB := by
      unfold multiplyVector
      rw [if_neg (by omega), if_neg (by rw [hAt0, hAlen, hBlen]; simp)]
      exact ⟨_, rfl⟩
    refine ⟨At, AtA, AtB, htrans, hmulAtA, hmulvAtB, ?_⟩
    show (match transpose A with
      | none => none
      | some At =>
        match multiply At A with
        | none => none
        | some AtA =>
          match multiplyVector At B with
          | none => none
          | some AtB =>
            match gaussJordan AtA AtB with
            | none => none
            | some params => some (extractCoeffs params)) =
      Option.map extractCoeffs (gaussJordan AtA AtB)
    simp only [htrans, hmulAtA, hmulvAtB]
    cases hg : gaussJordan AtA AtB with
    | none => rfl
    | some params => rfl

/-- Three concrete non-collinear control points. -/
def sampleControlPoints : List ControlPoint :=
  [⟨"A-01", ⟨some "A-01", none, none, 0, 0⟩, ⟨"A-01", 1, 1⟩⟩,
   ⟨"A-02", ⟨some "A-02", none, none, 100, 0⟩, ⟨"A-02", 1, 2⟩⟩,
   ⟨"A-03", ⟨some "A-03", none, none, 0, 100⟩, ⟨"A-03", 2, 1⟩⟩]

/-- Witness for C1 at three concrete control points (with the identity in
place of the transcendental latitude projection). -/
theorem claim_C1_affine_estimator_witness :
    (designMatrix sampleControlPoints).length =
      2 * sampleControlPoints.length ∧
    (∃ At AtA AtB,
      transpose (designMatrix sampleControlPoints) = some At ∧
      multiply At (designMatrix sampleControlPoints) = some AtA ∧
      multiplyVector At (targetVector (fun q => q) sampleControlPoints) =
        some AtB ∧
      calculateAffineTransformation (fun q => q) sampleControlPoints =
        Option.map extractCoeffs (gaussJordan AtA AtB)) := by
  have h := claim_C1_affine_estimator (fun q => q) sampleControlPoints
    (by decide)
  exact ⟨h.1.1, h.2.2⟩

/-! ### `convertImageCoordsToGps` (math-utils.js)

The JS guard is `!imageBounds || !imageWidth || !imageHeight`: it rejects a
missing bounds object and dimensions that are absent or zero (JS falsy), but a
negative dimension passes the guard. -/

/-- A Leaflet bounds object (`getSouthWest()` / `getNorthEast()`). -/
structure LatLngBounds where
  swLat : ℚ
  swLng : ℚ
  neLat : ℚ
  neLng : ℚ
  deriving Repr, DecidableEq

def convertImageCoordsToGps (imageX imageY : ℚ)
    (imageBounds : Option LatLngBounds) (imageWidth imageHeight : Option ℚ) :
    Option (ℚ × ℚ) :=
  match imageBounds, imageWidth, imageHeight with
  | some bounds, some w, some h =>
    if w = 0 ∨ h = 0 then none
    else
      some (bounds.neLat - (bounds.neLat - bounds.swLat) * (imageY / h),
            bounds.swLng + (bounds.neLng - bounds.swLng) * (imageX / w))
  | _, _, _ => none

/-- C9 (amended): `convertImageCoordsToGps` returns null exactly when the
bounds are missing or a dimension is missing or zero (the JS falsy guard);
for all other dimensions — including negative ones, which the claim said were
rejected — it returns the linear interpolation of the pixel position within
the bounding box (lng west-to-east by `imageX/imageWidth`, lat north-to-south
by `imageY/imageHeight`); in particular pixel `(0,0)` maps to the north-west
corner and pixel `(w,h)` to the south-east corner. -/
theorem claim_C9_convertImageCoordsToGps (imageX imageY : ℚ)
    (imageBounds : Option LatLngBounds) (imageWidth imageHeight : Option ℚ) :
    (convertImageCoordsToGps imageX imageY imageBounds imageWidth imageHeight
        = none ↔
      imageBounds = none ∨ imageWidth = none ∨ imageHeight = none ∨
        imageWidth = some 0 ∨ imageHeight = some 0) ∧
    (∀ bounds w h, imageBounds = some bounds → imageWidth = some w →
      imageHeight = some h → w ≠ 0 → h ≠ 0 →
      convertImageCoordsToGps imageX imageY imageBounds imageWidth imageHeight
        = some (bounds.neLat - (bounds.neLat - bounds.swLat) * (imageY / h),
            bounds.swLng + (bounds.neLng - bounds.swLng) * (imageX / w))) ∧
    (∀ bounds w h, w ≠ 0 → h ≠ 0 →
      convertImageCoordsToGps 0 0 (some bounds) (some w) (some h) =
        some (bounds.neLat, bounds.swLng) ∧
      convertImageCoordsToGps w h (some bounds) (some w) (some h) =
        some (bounds.swLat, bounds.neLng)) := by
  refine ⟨?_, ?_, ?_⟩
  · cases imageBounds with
    | none => simp [convertImageCoordsToGps]
    | some bounds =>
      cases imageWidth with
      | none => simp [convertImageCoordsToGps]
      | some w =>
        cases imageHeight with
        | none => simp [convertImageCoordsToGps]
        | some h =>
          simp only [convertImageCoordsToGps]
          by_cases hz : w = 0 ∨ h = 0
          · rw [if_pos hz]
            constructor
            · intro _
              rcases hz with hz | hz
              · exact Or.inr (Or.inr (Or.inr (Or.inl (by rw [hz]))))
              · exact Or.inr (Or.inr (Or.inr (Or.inr (by rw [hz]))))
            · intro _
              rfl
          · rw [if_neg hz]
            push_neg at hz
            simp [hz.1, hz.2]
  · intro bounds w h hb hw hh hw0 hh0
    subst hb
    subst hw
    subst hh
    simp only [convertImageCoordsToGps]
    rw [if_neg (by tauto)]
  · intro bounds w h hw0 hh0
    constructor
    · simp only [convertImageCoordsToGps]
      rw [if_neg (by tauto)]
      norm_num
    · simp only [convertImageCoordsToGps]
      rw [if_neg (by tauto)]
      rw [div_self hw0, div_self hh0]
      norm_num

unseal Rat.mul Rat.add Rat.sub Rat.inv in
/-- Counterexample for C9 as frozen: a negative image width is non-positive,
yet the conversion returns a value instead of null. -/
theorem claim_C9_counterexample :
    (-100 : ℚ) < 0 ∧
      convertImageCoordsToGps 10 20 (some ⟨0, 0, 1, 1⟩)
        (some (-100)) (some 50) ≠ none := by
  constructor
  · norm_num
  · decide

unseal Rat.mul Rat.add Rat.sub Rat.inv in
/-- Witness for C9 (amended), at concrete bounds and dimensions. -/
theorem claim_C9_convertImageCoordsToGps_witness :
    convertImageCoordsToGps 10 20 (some ⟨0, 0, 1, 1⟩) (some 100) (some 50)
        = some ((1 : ℚ) - (1 - 0) * (20 / 50), (0 : ℚ) + (1 - 0) * (10 / 100)) ∧
      convertImageCoordsToGps 0 0 (some ⟨0, 0, 1, 1⟩) (some 100) (some 50) =
        some ((1 : ℚ), (0 : ℚ)) := by
  have h := claim_C9_convertImageCoordsToGps 10 20 (some ⟨0, 0, 1, 1⟩)
    (some 100) (some 50)
  refine ⟨h.2.1 ⟨0, 0, 1, 1⟩ 100 50 rfl rfl rfl (by norm_num) (by norm_num), ?_⟩
  have h2 := (claim_C9_convertImageCoordsToGps 0 0 (some ⟨0, 0, 1, 1⟩)
    (some 100) (some 50)).2.2 ⟨0, 0, 1, 1⟩ 100 50 (by norm_num) (by norm_num)
  exact h2.1

/-! ### Route/spot deduplication (route-spot-handler.js)

JS truthiness appears in these comparisons: a string field is usable when it
is present and non-empty, a numeric field when it is present and non-zero. -/

def strTruthy : Option String → Bool
  | none => false
  | some s => decide (s ≠ "")

def numTruthy : Option ℚ → Bool
  | none => false
  | some q => decide (q ≠ 0)

/-- JS `a || b` on string-valued fields. -/
def jsOrStr (a b : Option String) : Option String :=
  if strTruthy a then a else b

structure SpotCoords where
  lat : ℚ
  lng : ℚ
  deriving Repr, DecidableEq

/-- A spot record as compared by `isSameSpot`. -/
structure Spot where
  imageX : Option ℚ
  imageY : Option ℚ
  coordinates : Option SpotCoords
  deriving Repr, DecidableEq

/-- `isSameSpot(spot1, spot2)`: image-pixel comparison (tolerance 0.1 px)
when all four image coordinates are defined, otherwise GPS comparison
(tolerance 1e-4 degrees) when both coordinate objects exist, otherwise
distinct. -/
def isSameSpot (spot1 spot2 : Spot) : Bool :=
  if spot1.imageX ≠ none ∧ spot1.imageY ≠ none ∧
      spot2.imageX ≠ none ∧ spot2.imageY ≠ none then
    decide (|spot1.imageX.getD 0 - spot2.imageX.getD 0| < 1/10) &&
      decide (|spot1.imageY.getD 0 - spot2.imageY.getD 0| < 1/10)
  else
    match spot1.coordinates, spot2.coordinates with
    | some coord1, some coord2 =>
      decide (|coord1.lat - coord2.lat| < 1/10000) &&
        decide (|coord1.lng - coord2.lng| < 1/10000)
    | _, _ => false

/-- A route endpoint (`startPoint` / `endPoint` entries). -/
structure RoutePoint where
  id : Option String
  name : Option String
  lat : Option ℚ
  lng : Option ℚ
  deriving Repr, DecidableEq

/-- A route record as compared by `isSameRoute`. -/
structure Route where
  startPoint : Option RoutePoint
  endPoint : Option RoutePoint
  deriving Repr, DecidableEq

/-- Coordinate proximity used by `isSameRoute` (`tolerance = 0.0001`); only
called once the truthiness guard has established both values are present. -/
def coordClose (a b : Option ℚ) : Bool :=
  decide (|a.getD 0 - b.getD 0| < 1/10000)

/-- The guard `start1Id && end1Id && start2Id && end2Id` on the resolved
identifiers (`point.id || point.name`). -/
def routeIdsAvailable (start1 end1 start2 end2 : RoutePoint) : Bool :=
  strTruthy (jsOrStr start1.id start1.name) &&
    strTruthy (jsOrStr end1.id end1.name) &&
    strTruthy (jsOrStr start2.id start2.name) &&
    strTruthy (jsOrStr end2.id end2.name)

/-- The guard `start1.lat && start1.lng && ... && end2.lng` on the eight
coordinate values. -/
def routeCoordsAvailable (start1 end1 start2 end2 : RoutePoint) : Bool :=
  numTruthy start1.lat && numTruthy start1.lng &&
    numTruthy end1.lat && numTruthy end1.lng &&
    numTruthy start2.lat && numTruthy start2.lng &&
    numTruthy end2.lat && numTruthy end2.lng

/-- `isSameRoute(route1, route2)` of route-spot-handler.js. -/
def isSameRoute (route1 route2 : Route) : Bool :=
  match route1.startPoint, route1.endPoint,
      route2.startPoint, route2.endPoint with
  | some start1, some end1, some start2, some end2 =>
    if routeIdsAvailable start1 end1 start2 end2 then
      (decide (jsOrStr start1.id start1.name = jsOrStr start2.id start2.name)
          && decide (jsOrStr end1.id end1.name = jsOrStr end2.id end2.name)) ||
        (decide (jsOrStr start1.id start1.name = jsOrStr end2.id end2.name)
          && decide (jsOrStr end1.id end1.name = jsOrStr start2.id start2.name))
    else if routeCoordsAvailable start1 end1 start2 end2 then
      (coordClose start1.lat start2.lat && coordClose start1.lng start2.lng &&
        coordClose end1.lat end2.lat && coordClose end1.lng end2.lng) ||
      (coordClose start1.lat end2.lat && coordClose start1.lng end2.lng &&
        coordClose end1.lat start2.lat && coordClose end1.lng start2.lng)
    else false
  | _, _, _, _ => false

unseal Rat.mul Rat.add Rat.sub Rat.inv in
/-- C6: two spots are the same entity when both carry image pixel coordinates
and those differ by less than 0.1 px in each axis; otherwise, when both carry
GPS coordinates, when those differ by less than 1e-4 degrees in each axis; in
every other case they are distinct.  Examples: (100.00, 50.00) and
(100.05, 50.05) are duplicates; (100.2, 50.0) is distinct from the first. -/
theorem claim_C6_isSameSpot :
    (∀ s1 s2 x1 y1 x2 y2,
      s1.imageX = some x1 → s1.imageY = some y1 →
      s2.imageX = some x2 → s2.imageY = some y2 →
      (isSameSpot s1 s2 = true ↔ |x1 - x2| < 1/10 ∧ |y1 - y2| < 1/10)) ∧
    (∀ s1 s2 c1 c2,
      (s1.imageX = none ∨ s1.imageY = none ∨ s2.imageX = none ∨
        s2.imageY = none) →
      s1.coordinates = some c1 → s2.coordinates = some c2 →
      (isSameSpot s1 s2 = true ↔
        |c1.lat - c2.lat| < 1/10000 ∧ |c1.lng - c2.lng| < 1/10000)) ∧
    (∀ s1 s2,
      (s1.imageX = none ∨ s1.imageY = none ∨ s2.imageX = none ∨
        s2.imageY = none) →
      (s1.coordinates = none ∨ s2.coordinates = none) →
      isSameSpot s1 s2 = false) ∧
    isSameSpot ⟨some 100, some 50, none⟩
      ⟨some (100 + 5/100), some (50 + 5/100), none⟩ = true ∧
    isSameSpot ⟨some 100, some 50, none⟩
      ⟨some (100 + 2/10), some 50, none⟩ = false := by
  refine ⟨?_, ?_, ?_, by decide, by decide⟩
  · intro s1 s2 x1 y1 x2 y2 h1 h2 h3 h4
    simp [isSameSpot, h1, h2, h3, h4]
  · intro s1 s2 c1 c2 himg hc1 hc2
    have hcond : ¬(s1.imageX ≠ none ∧ s1.imageY ≠ none ∧
        s2.imageX ≠ none ∧ s2.imageY ≠ none) := by
      rcases himg with h | h | h | h <;> simp [h]
    simp only [isSameSpot, if_neg hcond, hc1, hc2]
    rw [Bool.and_eq_true, decide_eq_true_iff, decide_eq_true_iff]
  · intro s1 s2 himg hco
    have hcond : ¬(s1.imageX ≠ none ∧ s1.imageY ≠ none ∧
        s2.imageX ≠ none ∧ s2.imageY ≠ none) := by
      rcases himg with h | h | h | h <;> simp [h]
    simp only [isSameSpot, if_neg hcond]
    rcases hco with h | h
    · rw [h]
    · rw [h]
      cases s1.coordinates <;> rfl

unseal Rat.mul Rat.add Rat.sub Rat.inv in
/-- Witness for C6: the image-coordinate branch applied at the claim's
concrete spots. -/
theorem claim_C6_isSameSpot_witness :
    isSameSpot ⟨some 100, some 50, none⟩
        ⟨some (100 + 5/100), some (50 + 5/100), none⟩ = true ↔
      |(100 : ℚ) - (100 + 5/100)| < 1/10 ∧ |(50 : ℚ) - (50 + 5/100)| < 1/10 :=
  claim_C6_isSameSpot.1 _ _ 100 50 (100 + 5/100) (50 + 5/100) rfl rfl rfl rfl

unseal Rat.mul Rat.add Rat.sub Rat.inv in
/-- C7: two routes are the same entity exactly when their start/end
identifiers match in forward or reverse order; when identifiers are
unavailable (JS-falsy), the comparison falls back to the start/end GPS
coordinates under the 1e-4 tolerance with the same forward/reverse rule
(provided those coordinate values are themselves JS-truthy, else distinct);
and a route with a missing start or end point on either side is never a
duplicate.  Example: {A-01, A-05} matches {A-05, A-01} in reverse, and is
distinct from {A-01, A-09}. -/
theorem claim_C7_isSameRoute :
    (∀ r1 r2 : Route,
      (r1.startPoint = none ∨ r1.endPoint = none ∨ r2.startPoint = none ∨
        r2.endPoint = none) → isSameRoute r1 r2 = false) ∧
    (∀ r1 r2 s1 e1 s2 e2,
      r1.startPoint = some s1 → r1.endPoint = some e1 →
      r2.startPoint = some s2 → r2.endPoint = some e2 →
      routeIdsAvailable s1 e1 s2 e2 = true →
      (isSameRoute r1 r2 = true ↔
        (jsOrStr s1.id s1.name = jsOrStr s2.id s2.name ∧
          jsOrStr e1.id e1.name = jsOrStr e2.id e2.name) ∨
        (jsOrStr s1.id s1.name = jsOrStr e2.id e2.name ∧
          jsOrStr e1.id e1.name = jsOrStr s2.id s2.name))) ∧
    (∀ r1 r2 s1 e1 s2 e2,
      r1.startPoint = some s1 → r1.endPoint = some e1 →
      r2.startPoint = some s2 → r2.endPoint = some e2 →
      routeIdsAvailable s1 e1 s2 e2 = false →
      routeCoordsAvailable s1 e1 s2 e2 = true →
      (isSameRoute r1 r2 = true ↔
        (|s1.lat.getD 0 - s2.lat.getD 0| < 1/10000 ∧
          |s1.lng.getD 0 - s2.lng.getD 0| < 1/10000 ∧
          |e1.lat.getD 0 - e2.lat.getD 0| < 1/10000 ∧
          |e1.lng.getD 0 - e2.lng.getD 0| < 1/10000) ∨
        (|s1.lat.getD 0 - e2.lat.getD 0| < 1/10000 ∧
          |s1.lng.getD 0 - e2.lng.getD 0| < 1/10000 ∧
          |e1.lat.getD 0 - s2.lat.getD 0| < 1/10000 ∧
          |e1.lng.getD 0 - s2.lng.getD 0| < 1/10000))) ∧
    (∀ r1 r2 s1 e1 s2 e2,
      r1.startPoint = some s1 → r1.endPoint = some e1 →
      r2.startPoint = some s2 → r2.endPoint = some e2 →
      routeIdsAvailable s1 e1 s2 e2 = false →
      routeCoordsAvailable s1 e1 s2 e2 = false →
      isSameRoute r1 r2 = false) ∧
    isSameRoute
      ⟨some ⟨some "A-01", none, none, none⟩, some ⟨some "A-05", none, none, none⟩⟩
      ⟨some ⟨some "A-05", none, none, none⟩, some ⟨some "A-01", none, none, none⟩⟩
      = true ∧
    isSameRoute
      ⟨some ⟨some "A-01", none, none, none⟩, some ⟨some "A-05", none, none, none⟩⟩
      ⟨some ⟨some "A-01", none, none, none⟩, some ⟨some "A-09", none, none, none⟩⟩
      = false := by
  refine ⟨?_, ?_, ?_, ?_, by decide, by decide⟩
  · intro r1 r2 h
    obtain ⟨sp1, ep1⟩ := r1
    obtain ⟨sp2, ep2⟩ := r2
    dsimp only at h
    rcases h with h | h | h | h
    · subst h
      cases ep1 <;> cases sp2 <;> cases ep2 <;> rfl
    · subst h
      cases sp1 <;> cases sp2 <;> cases ep2 <;> rfl
    · subst h
      cases sp1 <;> cases ep1 <;> cases ep2 <;> rfl
    · subst h
      cases sp1 <;> cases ep1 <;> cases sp2 <;> rfl
  · intro r1 r2 s1 e1 s2 e2 h1 h2 h3 h4 hav
    obtain ⟨sp1, ep1⟩ := r1
    obtain ⟨sp2, ep2⟩ := r2
    dsimp only at h1 h2 h3 h4
    subst h1
    subst h2
    subst h3
    subst h4
    simp only [isSameRoute]
    rw [if_pos hav]
    simp [Bool.or_eq_true, Bool.and_eq_true, decide_eq_true_iff]
  · intro r1 r2 s1 e1 s2 e2 h1 h2 h3 h4 hids hco
    obtain ⟨sp1, ep1⟩ := r1
    obtain ⟨sp2, ep2⟩ := r2
    dsimp only at h1 h2 h3 h4
    subst h1
    subst h2
    subst h3
    subst h4
    simp only [isSameRoute]
    rw [if_neg (by rw [hids]; exact Bool.false_ne_true), if_pos hco]
    simp only [coordClose, Bool.or_eq_true, Bool.and_eq_true,
      decide_eq_true_iff, and_assoc]
  · intro r1 r2 s1 e1 s2 e2 h1 h2 h3 h4 hids hco
    obtain ⟨sp1, ep1⟩ := r1
    obtain ⟨sp2, ep2⟩ := r2
    dsimp only at h1 h2 h3 h4
    subst h1
    subst h2
    subst h3
    subst h4
    simp only [isSameRoute]
    rw [if_neg (by rw [hids]; exact Bool.false_ne_true),
      if_neg (by rw [hco]; exact Bool.false_ne_true)]

/-- Witness for C7: the identifier branch applied to the claim's concrete
reverse-direction example. -/
theorem claim_C7_isSameRoute_witness :
    isSameRoute
        ⟨some ⟨some "A-01", none, none, none⟩,
          some ⟨some "A-05", none, none, none⟩⟩
        ⟨some ⟨some "A-05", none, none, none⟩,
          some ⟨some "A-01", none, none, none⟩⟩ = true ↔
      ((jsOrStr (some "A-01") none = jsOrStr (some "A-05") none ∧
          jsOrStr (some "A-05") none = jsOrStr (some "A-01") none) ∨
        (jsOrStr (some "A-01") none = jsOrStr (some "A-01") none ∧
          jsOrStr (some "A-05") none = jsOrStr (some "A-05") none)) :=
  claim_C7_isSameRoute.2.1 _ _
    ⟨some "A-01", none, none, none⟩ ⟨some "A-05", none, none, none⟩
    ⟨some "A-05", none, none, none⟩ ⟨some "A-01", none, none, none⟩
    rfl rfl rfl rfl (by decide)

/-! ### The matching engine (`matchPointJsonWithGPS`, georeferencing.js)

`gpsPointMap` is a `Map` filled by `gpsPoints.forEach(p => map.set(p.pointId,
p))` (last write wins); the identifier of each point JSON entry is resolved by
`pointJson.Id || pointJson.id || pointJson.name`, and `if (!pointJsonId)`
treats a falsy result (absent or empty) as missing. -/

def pjDefault : PointJson := ⟨none, none, none, 0, 0⟩

/-- The `Map` built from the GPS point list, as a lookup function. -/
def gpsLookup (gpsPoints : List GpsPoint) : String → Option GpsPoint :=
  gpsPoints.foldl
    (fun m p => fun k => if k = p.pointId then some p else m k)
    (fun _ => none)

/-- `pointJson.Id || pointJson.id || pointJson.name`, with the final
`if (!pointJsonId)` falsy test folded in (an empty string resolves to none). -/
def resolveId (pj : PointJson) : Option String :=
  let v := jsOrStr (jsOrStr pj.Id pj.id) pj.name
  if strTruthy v then v else none

/-- The synthetic identifier recorded for an entry with no usable id:
`` `[${index}] (IDなし)` ``. -/
def placeholderId (index : Nat) : String :=
  "[" ++ toString index ++ "] (IDなし)"

/-- The `pointJsonArray.forEach((pointJson, index) => ...)` loop, returning
`(matchedPairs, unmatchedPointJsonIds)` in iteration order. -/
def matchLoop (lookup : String → Option GpsPoint) :
    Nat → List PointJson → List ControlPoint × List String
  | _, [] => ([], [])
  | index, pj :: rest =>
    let tail := matchLoop lookup (index + 1) rest
    match resolveId pj with
    | none => (tail.1, placeholderId index :: tail.2)
    | some pid =>
      match lookup pid with
      | some gp => (⟨pid, pj, gp⟩ :: tail.1, tail.2)
      | none => (tail.1, pid :: tail.2)

/-- The three accepted shapes of `this.pointJsonData`. -/
inductive PointJsonData where
  | arr (points : List PointJson)
  | wrapped (points : List PointJson)
  | single (p : PointJson)

/-- `Array.isArray(data) ? data : (data.points ? data.points : [data])`. -/
def pointJsonArray : PointJsonData → List PointJson
  | .arr l => l
  | .wrapped l => l
  | .single p => [p]

structure MatchResult where
  matchedPairs : List ControlPoint
  unmatchedPointJsonIds : List String
  totalPointJsons : Nat

/-- `matchPointJsonWithGPS(gpsPoints)` of georeferencing.js. -/
def matchPointJsonWithGPS (pointJsonData : Option PointJsonData)
    (gpsPoints : List GpsPoint) : MatchResult :=
  match pointJsonData with
  | none => ⟨[], [], 0⟩
  | some pd =>
    let arr := pointJsonArray pd
    let res := matchLoop (gpsLookup gpsPoints) 0 arr
    ⟨res.1, res.2, arr.length⟩

theorem gpsLookup_pointId (gpsPoints : List GpsPoint) (k : String)
    (p : GpsPoint) (h : gpsLookup gpsPoints k = some p) : p.pointId = k := by
  suffices hgen : ∀ (m : String → Option GpsPoint),
      (∀ k' p', m k' = some p' → p'.pointId = k') →
      ∀ k' p', (gpsPoints.foldl
        (fun m q => fun k => if k = q.pointId then some q else m k) m) k' =
          some p' → p'.pointId = k' by
    exact hgen (fun _ => none) (fun _ _ h' => by cases h') k p h
  clear h
  induction gpsPoints with
  | nil =>
    intro m hm k' p' h'
    exact hm k' p' h'
  | cons q t ih =>
    intro m hm k' p' h'
    refine ih _ ?_ k' p' h'
    intro k2 p2 h2
    dsimp only at h2
    by_cases hk : k2 = q.pointId
    · rw [if_pos hk] at h2
      injection h2 with h3
      rw [← h3, hk]
    · rw [if_neg hk] at h2
      exact hm k2 p2 h2

theorem matchLoop_cons_none (lookup : String → Option GpsPoint)
    (start : Nat) (pj : PointJson) (rest : List PointJson)
    (h : resolveId pj = none) :
    matchLoop lookup start (pj :: rest) =
      ((matchLoop lookup (start + 1) rest).1,
        placeholderId start :: (matchLoop lookup (start + 1) rest).2) := by
  simp only [matchLoop]
  rw [h]

theorem matchLoop_cons_matched (lookup : String → Option GpsPoint)
    (start : Nat) (pj : PointJson) (rest : List PointJson) (pid : String)
    (gp : GpsPoint) (h1 : resolveId pj = some pid) (h2 : lookup pid = some gp) :
    matchLoop lookup start (pj :: rest) =
      ((⟨pid, pj, gp⟩ : ControlPoint) :: (matchLoop lookup (start + 1) rest).1,
        (matchLoop lookup (start + 1) rest).2) := by
  simp only [matchLoop, h1, h2]

theorem matchLoop_cons_unmatched (lookup : String → Option GpsPoint)
    (start : Nat) (pj : PointJson) (rest : List PointJson) (pid : String)
    (h1 : resolveId pj = some pid) (h2 : lookup pid = none) :
    matchLoop lookup start (pj :: rest) =
      ((matchLoop lookup (start + 1) rest).1,
        pid :: (matchLoop lookup (start + 1) rest).2) := by
  simp only [matchLoop, h1, h2]

/-- Anything in the tail's output lists is in the full output lists. -/
theorem matchLoop_tail_mem (lookup : String → Option GpsPoint) (start : Nat)
    (pj : PointJson) (rest : List PointJson) :
    (∀ pair, pair ∈ (matchLoop lookup (start + 1) rest).1 →
      pair ∈ (matchLoop lookup start (pj :: rest)).1) ∧
    (∀ x, x ∈ (matchLoop lookup (start + 1) rest).2 →
      x ∈ (matchLoop lookup start (pj :: rest)).2) := by
  cases hr : resolveId pj with
  | none =>
    rw [matchLoop_cons_none lookup start pj rest hr]
    exact ⟨fun pair hp => hp, fun x hx => List.mem_cons_of_mem _ hx⟩
  | some pid =>
    cases hl : lookup pid with
    | none =>
      rw [matchLoop_cons_unmatched lookup start pj rest pid hr hl]
      exact ⟨fun pair hp => hp, fun x hx => List.mem_cons_of_mem _ hx⟩
    | some gp =>
      rw [matchLoop_cons_matched lookup start pj rest pid gp hr hl]
      exact ⟨fun pair hp => List.mem_cons_of_mem _ hp, fun x hx => hx⟩

theorem matchLoop_spec (lookup : String → Option GpsPoint) :
    ∀ (entities : List PointJson) (start : Nat),
      (∀ i, i < entities.length →
        (resolveId (entities.getD i pjDefault) = none →
          placeholderId (start + i) ∈ (matchLoop lookup start entities).2) ∧
        (∀ pid, resolveId (entities.getD i pjDefault) = some pid →
          lookup pid = none →
          pid ∈ (matchLoop lookup start entities).2) ∧
        (∀ pid gp, resolveId (entities.getD i pjDefault) = some pid →
          lookup pid = some gp →
          (⟨pid, entities.getD i pjDefault, gp⟩ : ControlPoint) ∈
            (matchLoop lookup start entities).1)) ∧
      (∀ pair ∈ (matchLoop lookup start entities).1,
        resolveId pair.pointJson = some pair.pointJsonId ∧
          lookup pair.pointJsonId = some pair.gpsPoint) := by
  intro entities
  induction entities with
  | nil =>
    intro start
    refine ⟨?_, ?_⟩
    · intro i hi
      simp at hi
    · intro pair hp
      cases hp
  | cons pj rest ih =>
    intro start
    obtain ⟨ih1, ih2⟩ := ih (start + 1)
    obtain ⟨hsub1, hsub2⟩ := matchLoop_tail_mem lookup start pj rest
    constructor
    · intro i hi
      cases i with
      | zero =>
        rw [show (pj :: rest).getD 0 pjDefault = pj from rfl]
        refine ⟨?_, ?_, ?_⟩
        · intro hres
          rw [matchLoop_cons_none lookup start pj rest hres]
          rw [Nat.add_zero]
          exact List.mem_cons_self _ _
        · intro pid hres hlk
          rw [matchLoop_cons_unmatched lookup start pj rest pid hres hlk]
          exact List.mem_cons_self _ _
        · intro pid gp hres hlk
          rw [matchLoop_cons_matched lookup start pj rest pid gp hres hlk]
          exact List.mem_cons_self _ _
      | succ j =>
        have hj : j < rest.length := by simpa using hi
        obtain ⟨p1, p2, p3⟩ := ih1 j hj
        rw [List.getD_cons_succ]
        refine ⟨?_, ?_, ?_⟩
        · intro hres
          rw [show start + (j + 1) = (start + 1) + j by omega]
          exact hsub2 _ (p1 hres)
        · intro pid hres hlk
          exact hsub2 _ (p2 pid hres hlk)
        · intro pid gp hres hlk
          exact hsub1 _ (p3 pid gp hres hlk)
    · intro pair hp
      cases hr : resolveId pj with
      | none =>
        rw [matchLoop_cons_none lookup start pj rest hr] at hp
        exact ih2 pair hp
      | some pid =>
        cases hl : lookup pid with
        | none =>
          rw [matchLoop_cons_unmatched lookup start pj rest pid hr hl] at hp
          exact ih2 pair hp
        | some gp =>
          rw [matchLoop_cons_matched lookup start pj rest pid gp hr hl] at hp
          rcases List.mem_cons.mp hp with he | hp'
          · subst he
            exact ⟨hr, hl⟩
          · exact ih2 pair hp'

/-- C8: the matching engine resolves each image-coordinate entity's identifier
by trying `Id`, then `id`, then `name`; an entity lacking all three (JS-falsy)
is reported unmatched under the synthetic placeholder `[index] (IDなし)`
recording its position; an entity whose resolved identifier has no GPS
counterpart is reported unmatched under that identifier; and every matched
pair is an exact identifier match (`pair.gpsPoint.pointId = resolved id`) —
no fuzzy or coordinate-based fallback. -/
theorem claim_C8_matching (gpsPoints : List GpsPoint)
    (entities : List PointJson) :
    (∀ i, i < entities.length →
      (resolveId (entities.getD i pjDefault) = none →
        placeholderId i ∈
          (matchPointJsonWithGPS (some (.arr entities))
            gpsPoints).unmatchedPointJsonIds) ∧
      (∀ pid, resolveId (entities.getD i pjDefault) = some pid →
        gpsLookup gpsPoints pid = none →
        pid ∈ (matchPointJsonWithGPS (some (.arr entities))
          gpsPoints).unmatchedPointJsonIds) ∧
      (∀ pid gp, resolveId (entities.getD i pjDefault) = some pid →
        gpsLookup gpsPoints pid = some gp →
        (⟨pid, entities.getD i pjDefault, gp⟩ : ControlPoint) ∈
          (matchPointJsonWithGPS (some (.arr entities))
            gpsPoints).matchedPairs)) ∧
    (∀ pair ∈ (matchPointJsonWithGPS (some (.arr entities))
        gpsPoints).matchedPairs,
      resolveId pair.pointJson = some pair.pointJsonId ∧
        gpsLookup gpsPoints pair.pointJsonId = some pair.gpsPoint ∧
        pair.gpsPoint.pointId = pair.pointJsonId) ∧
    (matchPointJsonWithGPS (some (.arr entities)) gpsPoints).totalPointJsons =
      entities.length ∧
    matchPointJsonWithGPS none gpsPoints = ⟨[], [], 0⟩ := by
  obtain ⟨h1, h2⟩ := matchLoop_spec (gpsLookup gpsPoints) entities 0
  refine ⟨?_, ?_, rfl, rfl⟩
  · intro i hi
    obtain ⟨p1, p2, p3⟩ := h1 i hi
    refine ⟨?_, p2, p3⟩
    intro hres
    have := p1 hres
    rwa [Nat.zero_add] at this
  · intro pair hp
    obtain ⟨ha, hb⟩ := h2 pair hp
    exact ⟨ha, hb, gpsLookup_pointId gpsPoints _ _ hb⟩

/-- Concrete matching inputs: one entity with a usable id, one with none. -/
def samplePointJsons : List PointJson :=
  [⟨some "A-01", none, none, 10, 20⟩, ⟨none, none, none, 5, 6⟩]

def sampleGpsPoints : List GpsPoint := [⟨"A-01", 1, 2⟩]

unseal Rat.mul Rat.add Rat.sub Rat.inv in
/-- Witness for C8: the id-less entity lands in the unmatched list under its
placeholder, and the identified entity matches its GPS point exactly. -/
theorem claim_C8_matching_witness :
    placeholderId 1 ∈
      (matchPointJsonWithGPS (some (.arr samplePointJsons))
        sampleGpsPoints).unmatchedPointJsonIds ∧
    (⟨"A-01", ⟨some "A-01", none, none, 10, 20⟩, ⟨"A-01", 1, 2⟩⟩ :
        ControlPoint) ∈
      (matchPointJsonWithGPS (some (.arr samplePointJsons))
        sampleGpsPoints).matchedPairs := by
  have h := claim_C8_matching sampleGpsPoints samplePointJsons
  constructor
  · exact (h.1 1 (by decide)).1 (by decide)
  · exact (h.1 0 (by decide)).2.2 "A-01" ⟨"A-01", 1, 2⟩ (by decide) (by decide)

/-! ### Precise transformation and position synchronization
(affine-transformation.js, georeferencing.js)

`webMercatorYToLat` (`Math.atan`/`Math.exp`) and `Math.sqrt` are
transcendental and appear as abstract parameters `webMercatorYToLat sqrtQ :
ℚ → ℚ`.  The image overlay (center/scale updates through
`imageOverlay.setTransformedPosition`) is an external collaborator and is not
part of the tracked state. -/

/-- The accuracy report of `calculateTransformationAccuracy`. -/
structure Accuracy where
  meanError : ℚ
  maxError : ℚ
  minError : ℚ
  errors : List ℚ

/-- The result object of `calculatePreciseTransformation`. -/
structure Transformation where
  type : String
  transformation : Option TransCoeffs
  accuracy : Option Accuracy
  controlPoints : List ControlPoint
  usedPoints : Nat

/-- `calculateTransformationAccuracy(controlPoints, transformation)`:
per-point residual distance in projected meters, with mean/max/min. -/
def calculateTransformationAccuracy (latToWebMercatorY sqrtQ : ℚ → ℚ)
    (controlPoints : List ControlPoint) (t : TransCoeffs) : Accuracy :=
  let errors := controlPoints.map (fun point =>
    sqrtQ ((t.a * point.pointJson.imageX + t.b * point.pointJson.imageY + t.c -
        lonToWebMercatorX point.gpsPoint.lng) ^ 2 +
      (t.d * point.pointJson.imageX + t.e * point.pointJson.imageY + t.f -
        latToWebMercatorY point.gpsPoint.lat) ^ 2))
  { meanError := errors.sum / errors.length,
    maxError := match errors with | [] => 0 | e :: rest => rest.foldl max e,
    minError := match errors with | [] => 0 | e :: rest => rest.foldl min e,
    errors := errors }

/-- `calculatePreciseTransformation(controlPoints)` of
affine-transformation.js: null for fewer than 3 points, otherwise the least
squares fit with its accuracy report. -/
def calculatePreciseTransformation (latToWebMercatorY sqrtQ : ℚ → ℚ)
    (controlPoints : List ControlPoint) : Option Transformation :=
  if controlPoints.length < 3 then none
  else
    match calculateAffineTransformation latToWebMercatorY controlPoints with
    | none => none
    | some transformation =>
      some { type := "precise",
             transformation := some transformation,
             accuracy := some (calculateTransformationAccuracy
               latToWebMercatorY sqrtQ controlPoints transformation),
             controlPoints := controlPoints,
             usedPoints := controlPoints.length }

/-- `applyAffineTransform(imageX, imageY, transformation)` of math-utils.js:
null if the transformation object or its coefficient record is absent,
otherwise the affine map into Web Mercator followed by the inverse
projection, returned as `[lat, lng]`. -/
def applyAffineTransform (webMercatorYToLat : ℚ → ℚ) (imageX imageY : ℚ)
    (transformation : Option Transformation) : Option (ℚ × ℚ) :=
  match transformation with
  | none => none
  | some t =>
    match t.transformation with
    | none => none
    | some tr =>
      some (webMercatorYToLat (tr.d * imageX + tr.e * imageY + tr.f),
            webMercatorXToLon (tr.a * imageX + tr.b * imageY + tr.c))

/-- `transformImageCoordsToGps` of georeferencing.js: accessing `.type` on a
null transformation throws (caught as null); a non-precise type is rejected;
otherwise `applyAffineTransform` is used. -/
def transformImageCoordsToGps (webMercatorYToLat : ℚ → ℚ) (imageX imageY : ℚ)
    (transformation : Option Transformation) : Option (ℚ × ℚ) :=
  match transformation with
  | none => none
  | some t =>
    if t.type = "precise" then
      applyAffineTransform webMercatorYToLat imageX imageY (some t)
    else none

/-- `marker.__meta`: the origin tag and the image coordinates. -/
structure MarkerMeta where
  origin : String
  imageX : Option ℚ
  imageY : Option ℚ

/-- A spot marker (or a single route start/mid/end marker): metadata plus the
displayed position. -/
structure SpotMarker where
  meta : Option MarkerMeta
  pos : ℚ × ℚ

/-- A route marker is either a single marker (`marker.setLatLng` exists) or a
polyline with per-vertex metadata (`marker.__meta.points`, missing modelled
as `[]`). -/
inductive RouteMarker where
  | single (meta : Option MarkerMeta) (pos : ℚ × ℚ)
  | poly (metaPoints : List MarkerMeta) (positions : List (ℚ × ℚ))

/-- `markerInfo.data` of an image-coordinate marker. -/
structure MarkerData where
  imageX : Option ℚ
  imageY : Option ℚ

/-- An entry of `imageCoordinateMarkers`. -/
structure MarkerInfo where
  type : String
  data : Option MarkerData
  pos : ℚ × ℚ

/-- The spot branch of `syncSpotMarkers` (also the single-marker branch of
`syncRouteMarkers`): an `image`-origin marker with defined image coordinates
is moved to the transformed position when the transform succeeds; everything
else is left in place. -/
def syncSpotMarker (webMercatorYToLat : ℚ → ℚ)
    (currentTransformation : Option Transformation) (m : SpotMarker) :
    SpotMarker :=
  match m.meta with
  | some meta =>
    if meta.origin = "image" then
      match meta.imageX, meta.imageY with
      | some x, some y =>
        match transformImageCoordsToGps webMercatorYToLat x y
            currentTransformation with
        | some newPos => { m with pos := newPos }
        | none => m
      | _, _ => m
    else m
  | none => m

def syncSpotMarkers (webMercatorYToLat : ℚ → ℚ)
    (currentTransformation : Option Transformation)
    (spotMarkers : List SpotMarker) : List SpotMarker :=
  spotMarkers.map (syncSpotMarker webMercatorYToLat currentTransformation)

/-- The per-vertex update of the polyline branch of `syncRouteMarkers`. -/
def syncRouteVertex (webMercatorYToLat : ℚ → ℚ)
    (currentTransformation : Option Transformation)
    (metaPoints : List MarkerMeta) (i : Nat) (latlng : ℚ × ℚ) : ℚ × ℚ :=
  match metaPoints.get? i with
  | some pMeta =>
    if pMeta.origin = "image" then
      match pMeta.imageX, pMeta.imageY with
      | some x, some y =>
        match transformImageCoordsToGps webMercatorYToLat x y
            currentTransformation with
        | some newPos => newPos
        | none => latlng
      | _, _ => latlng
    else latlng
  | none => latlng

def syncRouteMarker (webMercatorYToLat : ℚ → ℚ)
    (currentTransformation : Option Transformation) :
    RouteMarker → RouteMarker
  | .single meta pos =>
    match meta with
    | some m =>
      if m.origin = "image" then
        match m.imageX, m.imageY with
        | some x, some y =>
          match transformImageCoordsToGps webMercatorYToLat x y
              currentTransformation with
          | some newPos => .single meta newPos
          | none => .single meta pos
        | _, _ => .single meta pos
      else .single meta pos
    | none => .single meta pos
  | .poly metaPoints positions =>
    .poly metaPoints
      (mapIdxFrom
        (syncRouteVertex webMercatorYToLat currentTransformation metaPoints)
        0 positions)

def syncRouteMarkers (webMercatorYToLat : ℚ → ℚ)
    (currentTransformation : Option Transformation)
    (routeMarkers : List RouteMarker) : List RouteMarker :=
  routeMarkers.map (syncRouteMarker webMercatorYToLat currentTransformation)

/-- `updateMarkerPositions(useTransformation)`: only `georeference-point`
markers with complete image-coordinate data are moved, either through the
current transformation or through the bounds-based conversion of the
coordinate display (absent ⇒ no move). -/
def updateMarkerInfo (webMercatorYToLat : ℚ → ℚ)
    (currentTransformation : Option Transformation)
    (coordinateDisplay : Option (ℚ → ℚ → Option (ℚ × ℚ)))
    (useTransformation : Bool) (mi : MarkerInfo) : MarkerInfo :=
  if mi.type ≠ "georeference-point" then mi
  else
    match mi.data with
    | none => mi
    | some d =>
      match d.imageX, d.imageY with
      | some x, some y =>
        let newLatLng :=
          if useTransformation && currentTransformation.isSome then
            transformImageCoordsToGps webMercatorYToLat x y
              currentTransformation
          else
            match coordinateDisplay with
            | some conv => conv x y
            | none => none
        match newLatLng with
        | some p => { mi with pos := p }
        | none => mi
      | _, _ => mi

def updateMarkerPositions (webMercatorYToLat : ℚ → ℚ)
    (currentTransformation : Option Transformation)
    (coordinateDisplay : Option (ℚ → ℚ → Option (ℚ × ℚ)))
    (useTransformation : Bool) (markers : List MarkerInfo) :
    List MarkerInfo :=
  markers.map (updateMarkerInfo webMercatorYToLat currentTransformation
    coordinateDisplay useTransformation)

/-- `syncPointPositions`: bounds-based before the first fit, transform-based
afterwards. -/
def syncPointPositions (webMercatorYToLat : ℚ → ℚ)
    (currentTransformation : Option Transformation)
    (coordinateDisplay : Option (ℚ → ℚ → Option (ℚ × ℚ)))
    (markers : List MarkerInfo) : List MarkerInfo :=
  match currentTransformation with
  | none => updateMarkerPositions webMercatorYToLat currentTransformation
      coordinateDisplay false markers
  | some _ => updateMarkerPositions webMercatorYToLat currentTransformation
      coordinateDisplay true markers

/-- The tracked state of the Georeferencing module. -/
structure GeoState where
  pointJsonData : Option PointJsonData
  currentTransformation : Option Transformation
  imageCoordinateMarkers : List MarkerInfo
  routeMarkers : List RouteMarker
  spotMarkers : List SpotMarker
  imageUpdateCallbackRegistered : Bool
  routeSpotHandlerPresent : Bool
  coordinateDisplay : Option (ℚ → ℚ → Option (ℚ × ℚ))

/-- `syncRouteSpotPositions`: skipped without a route/spot handler; each
marker family is synchronized when non-empty. -/
def syncRouteSpotPositions (webMercatorYToLat : ℚ → ℚ) (s : GeoState) :
    GeoState :=
  if !s.routeSpotHandlerPresent then s
  else
    let rm := syncRouteMarkers webMercatorYToLat s.currentTransformation
      s.routeMarkers
    let s1 := if s.routeMarkers.length > 0 then
      { s with routeMarkers := rm } else s
    let sm := syncSpotMarkers webMercatorYToLat s1.currentTransformation
      s1.spotMarkers
    if s1.spotMarkers.length > 0 then
      { s1 with spotMarkers := sm } else s1

/-- The image-update callback registered by
`performGeoreferencingCalculations`:
`syncPointPositions(); syncRouteSpotPositions()`. -/
def imageUpdateSyncPass (webMercatorYToLat : ℚ → ℚ) (s : GeoState) :
    GeoState :=
  let pts := syncPointPositions webMercatorYToLat s.currentTransformation
    s.coordinateDisplay s.imageCoordinateMarkers
  syncRouteSpotPositions webMercatorYToLat { s with imageCoordinateMarkers := pts }

/-- `updatePointJsonMarkersAfterTransformation`: with a current
transformation and a non-empty marker list, every `georeference-point` marker
with complete data is moved through the transformation, then
`syncPointPositions` runs. -/
def updatePointJsonMarkersAfterTransformation (webMercatorYToLat : ℚ → ℚ)
    (s : GeoState) : GeoState :=
  match s.currentTransformation with
  | none => s
  | some _ =>
    if s.imageCoordinateMarkers.length = 0 then s
    else
      let moved := s.imageCoordinateMarkers.map (fun mi =>
        if mi.type = "georeference-point" then
          match mi.data with
          | none => mi
          | some d =>
            match d.imageX, d.imageY with
            | some x, some y =>
              match transformImageCoordsToGps webMercatorYToLat x y
                  s.currentTransformation with
              | some p => { mi with pos := p }
              | none => mi
            | _, _ => mi
        else mi)
      let s1 := { s with imageCoordinateMarkers := moved }
      let pts := syncPointPositions webMercatorYToLat s1.currentTransformation
        s1.coordinateDisplay s1.imageCoordinateMarkers
      { s1 with imageCoordinateMarkers := pts }

/-- `applyPreciseTransformation`: installs the transformation as
`currentTransformation`, repositions the image overlay (an external
collaborator, untracked here), and updates the point markers. -/
def applyPreciseTransformation (webMercatorYToLat : ℚ → ℚ)
    (t : Transformation) (s : GeoState) : GeoState :=
  updatePointJsonMarkersAfterTransformation webMercatorYToLat
    { s with currentTransformation := some t }

/-- `applyTransformationToImage`: only `precise` transformations are
applied. -/
def applyTransformationToImage (webMercatorYToLat : ℚ → ℚ)
    (t : Transformation) (s : GeoState) : GeoState :=
  if t.type = "precise" then applyPreciseTransformation webMercatorYToLat t s
  else s

/-- `performAutomaticGeoreferencing(matchedPairs)`: estimates the precise
transformation, and on success applies it and synchronizes routes/spots; on
failure (null) only warns, leaving the state unchanged. -/
def performAutomaticGeoreferencing (latToWebMercatorY webMercatorYToLat
    sqrtQ : ℚ → ℚ) (matchedPairs : List ControlPoint) (s : GeoState) :
    GeoState :=
  match calculatePreciseTransformation latToWebMercatorY sqrtQ matchedPairs with
  | none => s
  | some transformation =>
    let s1 := applyTransformationToImage webMercatorYToLat transformation s
    syncRouteSpotPositions webMercatorYToLat s1

/-- The statistics object returned by `performGeoreferencingCalculations`. -/
structure GeoResult where
  matchedCount : Nat
  unmatchedPoints : List String
  totalPoints : Nat
  totalPointJsons : Nat
  matchedPairs : List ControlPoint
  georeferenceCompleted : Bool

/-- `performGeoreferencingCalculations` of georeferencing.js: matches the
loaded point JSON against the GPS points; with at least 3 matched pairs it
runs the automatic georeferencing and registers the image-update callback
once; with fewer it throws, leaving the state untouched. -/
def performGeoreferencingCalculations (latToWebMercatorY webMercatorYToLat
    sqrtQ : ℚ → ℚ) (gpsPoints : List GpsPoint) (s : GeoState) :
    Except String (GeoState × GeoResult) :=
  let matchResult := matchPointJsonWithGPS s.pointJsonData gpsPoints
  if 3 ≤ matchResult.matchedPairs.length then
    let s1 := performAutomaticGeoreferencing latToWebMercatorY
      webMercatorYToLat sqrtQ matchResult.matchedPairs s
    let s2 := if s1.imageUpdateCallbackRegistered then s1
      else { s1 with imageUpdateCallbackRegistered := true }
    Except.ok (s2,
      { matchedCount := matchResult.matchedPairs.length,
        unmatchedPoints := matchResult.unmatchedPointJsonIds,
        totalPoints := gpsPoints.length,
        totalPointJsons := matchResult.totalPointJsons,
        matchedPairs := matchResult.matchedPairs,
        georeferenceCompleted := true })
  else
    Except.error ("精密版ジオリファレンシングには最低3つのポイントが必要です。現在: "
      ++ toString matchResult.matchedPairs.length ++ "ポイント")

/-- C3: whenever transform estimation is requested with fewer than 3 matched
control points, the estimation fails — `calculatePreciseTransformation`
returns null before computing anything, and
`performGeoreferencingCalculations` throws the InsufficientControlPoints
error, returning no new state at all, so no transform (not even a partial
one) is produced or installed as the current transformation. -/
theorem claim_C3_insufficient_control_points (latToWebMercatorY
    webMercatorYToLat sqrtQ : ℚ → ℚ) :
    (∀ controlPoints : List ControlPoint, controlPoints.length < 3 →
      calculatePreciseTransformation latToWebMercatorY sqrtQ controlPoints =
        none) ∧
    (∀ (gpsPoints : List GpsPoint) (s : GeoState),
      (matchPointJsonWithGPS s.pointJsonData gpsPoints).matchedPairs.length < 3 →
      (∃ msg, performGeoreferencingCalculations latToWebMercatorY
          webMercatorYToLat sqrtQ gpsPoints s = Except.error msg) ∧
      ∀ s' res, performGeoreferencingCalculations latToWebMercatorY
          webMercatorYToLat sqrtQ gpsPoints s ≠ Except.ok (s', res)) := by
  constructor
  · intro controlPoints hlt
    unfold calculatePreciseTransformation
    rw [if_pos hlt]
  · intro gpsPoints s hlt
    have hcond : ¬ 3 ≤
        (matchPointJsonWithGPS s.pointJsonData gpsPoints).matchedPairs.length :=
      by omega
    constructor
    · cases hE : performGeoreferencingCalculations latToWebMercatorY
        webMercatorYToLat sqrtQ gpsPoints s with
      | error msg => exact ⟨msg, rfl⟩
      | ok pr =>
        exfalso
        unfold performGeoreferencingCalculations at hE
        rw [if_neg hcond] at hE
        cases hE
    · intro s' res h
      unfold performGeoreferencingCalculations at h
      rw [if_neg hcond] at h
      cases h

/-- Witness for C3 at an empty state (no point JSON loaded, zero matches). -/
theorem claim_C3_insufficient_control_points_witness :
    calculatePreciseTransformation (fun q => q) (fun q => q) [] = none ∧
      (∃ msg, performGeoreferencingCalculations (fun q => q) (fun q => q)
        (fun q => q) []
        ⟨none, none, [], [], [], false, false, none⟩ = Except.error msg) := by
  have h := claim_C3_insufficient_control_points (fun q => q) (fun q => q)
    (fun q => q)
  exact ⟨h.1 [] (by decide),
    (h.2 [] ⟨none, none, [], [], [], false, false, none⟩ (by decide)).1⟩

/-! ### Canonical forms of the synchronization updaters

Each updater computes a candidate position from immutable inputs (metadata,
transformation, conversion) and only overwrites the entity's position when
that candidate exists; the lemmas below factor this shape out, from which the
origin invariants (C4) and idempotence (C5) follow. -/

/-- The candidate position for a spot / single route marker. -/
def spotResolve (webMercatorYToLat : ℚ → ℚ)
    (currentTransformation : Option Transformation)
    (meta : Option MarkerMeta) : Option (ℚ × ℚ) :=
  match meta with
  | some m =>
    if m.origin = "image" then
      match m.imageX, m.imageY with
      | some x, some y =>
        transformImageCoordsToGps webMercatorYToLat x y currentTransformation
      | _, _ => none
    else none
  | none => none

theorem syncSpotMarker_eq (y : ℚ → ℚ) (t? : Option Transformation)
    (m : SpotMarker) :
    syncSpotMarker y t? m =
      match spotResolve y t? m.meta with
      | some p => { m with pos := p }
      | none => m := by
  obtain ⟨metaOpt, pos⟩ := m
  cases metaOpt with
  | none => rfl
  | some mm =>
    obtain ⟨o, ix, iy⟩ := mm
    by_cases horig : o = "image"
    · simp only [syncSpotMarker, spotResolve, if_pos horig]
      cases ix with
      | none => rfl
      | some x =>
        cases iy with
        | none => rfl
        | some yy =>
          cases transformImageCoordsToGps y x yy t? <;> rfl
    · simp only [syncSpotMarker, spotResolve, if_neg horig]

theorem syncRouteVertex_eq (y : ℚ → ℚ) (t? : Option Transformation)
    (metaPoints : List MarkerMeta) (i : Nat) (pos : ℚ × ℚ) :
    syncRouteVertex y t? metaPoints i pos =
      (spotResolve y t? (metaPoints.get? i)).getD pos := by
  cases hget : metaPoints.get? i with
  | none => simp only [syncRouteVertex, spotResolve, hget]; rfl
  | some pm =>
    obtain ⟨o, ix, iy⟩ := pm
    by_cases horig : o = "image"
    · simp only [syncRouteVertex, spotResolve, hget, if_pos horig]
      cases ix with
      | none => rfl
      | some x =>
        cases iy with
        | none => rfl
        | some yy =>
          dsimp only
          cases transformImageCoordsToGps y x yy t? <;> rfl
    · simp only [syncRouteVertex, spotResolve, hget, if_neg horig]
      rfl

theorem syncRouteMarker_single_eq (y : ℚ → ℚ) (t? : Option Transformation)
    (meta : Option MarkerMeta) (pos : ℚ × ℚ) :
    syncRouteMarker y t? (.single meta pos) =
      .single meta ((spotResolve y t? meta).getD pos) := by
  cases meta with
  | none => rfl
  | some mm =>
    obtain ⟨o, ix, iy⟩ := mm
    by_cases horig : o = "image"
    · simp only [syncRouteMarker, spotResolve, if_pos horig]
      cases ix with
      | none => rfl
      | some x =>
        cases iy with
        | none => rfl
        | some yy =>
          dsimp only
          cases transformImageCoordsToGps y x yy t? <;> rfl
    · simp only [syncRouteMarker, spotResolve, if_neg horig]
      rfl

/-- The candidate position for a `georeference-point` marker in
`updateMarkerPositions`. -/
def pointResolve (webMercatorYToLat : ℚ → ℚ)
    (currentTransformation : Option Transformation)
    (coordinateDisplay : Option (ℚ → ℚ → Option (ℚ × ℚ)))
    (useTransformation : Bool) (ty : String) (dat : Option MarkerData) :
    Option (ℚ × ℚ) :=
  if ty ≠ "georeference-point" then none
  else
    match dat with
    | none => none
    | some d =>
      match d.imageX, d.imageY with
      | some x, some y =>
        if useTransformation && currentTransformation.isSome then
          transformImageCoordsToGps webMercatorYToLat x y
            currentTransformation
        else
          match coordinateDisplay with
          | some conv => conv x y
          | none => none
      | _, _ => none

theorem updateMarkerInfo_eq (y : ℚ → ℚ) (t? : Option Transformation)
    (c : Option (ℚ → ℚ → Option (ℚ × ℚ))) (u : Bool) (mi : MarkerInfo) :
    updateMarkerInfo y t? c u mi =
      match pointResolve y t? c u mi.type mi.data with
      | some p => { mi with pos := p }
      | none => mi := by
  obtain ⟨ty, dat, pos⟩ := mi
  by_cases hty : ty ≠ "georeference-point"
  · simp only [updateMarkerInfo, pointResolve, if_pos hty]
  · simp only [updateMarkerInfo, pointResolve, if_neg hty]
    cases dat with
    | none => rfl
    | some d =>
      obtain ⟨ix, iy⟩ := d
      cases ix with
      | none => rfl
      | some x =>
        cases iy with
        | none => rfl
        | some yy =>
          by_cases hu : (u && t?.isSome) = true
          · simp only [hu, if_true]
          · simp only [Bool.not_eq_true] at hu
            simp only [hu, Bool.false_eq_true, if_false]

theorem syncSpotMarker_idem (y : ℚ → ℚ) (t? : Option Transformation)
    (m : SpotMarker) :
    syncSpotMarker y t? (syncSpotMarker y t? m) = syncSpotMarker y t? m := by
  rw [syncSpotMarker_eq y t? m]
  cases hr : spotResolve y t? m.meta with
  | none =>
    dsimp only
    rw [syncSpotMarker_eq y t? m, hr]
  | some p =>
    dsimp only
    rw [syncSpotMarker_eq]
    dsimp only
    rw [hr]

theorem syncRouteVertex_idem (y : ℚ → ℚ) (t? : Option Transformation)
    (metaPoints : List MarkerMeta) (i : Nat) (pos : ℚ × ℚ) :
    syncRouteVertex y t? metaPoints i
        (syncRouteVertex y t? metaPoints i pos) =
      syncRouteVertex y t? metaPoints i pos := by
  rw [syncRouteVertex_eq, syncRouteVertex_eq]
  cases spotResolve y t? (metaPoints.get? i) <;> rfl

theorem mapIdxFrom_idem {α : Type _} (f : Nat → α → α)
    (hf : ∀ i a, f i (f i a) = f i a) :
    ∀ (s : Nat) (l : List α),
      mapIdxFrom f s (mapIdxFrom f s l) = mapIdxFrom f s l := by
  intro s l
  induction l generalizing s with
  | nil => rfl
  | cons a t ih =>
    simp only [mapIdxFrom]
    rw [hf, ih]

theorem syncRouteMarker_idem (y : ℚ → ℚ) (t? : Option Transformation) :
    ∀ rm : RouteMarker,
      syncRouteMarker y t? (syncRouteMarker y t? rm) =
        syncRouteMarker y t? rm
  | .single meta pos => by
    rw [syncRouteMarker_single_eq, syncRouteMarker_single_eq]
    cases spotResolve y t? meta <;> rfl
  | .poly metaPoints positions => by
    show RouteMarker.poly _ _ = RouteMarker.poly _ _
    congr 1
    exact mapIdxFrom_idem _ (syncRouteVertex_idem y t? metaPoints) 0 positions

theorem map_idem {α : Type _} (f : α → α) (hf : ∀ a, f (f a) = f a) :
    ∀ l : List α, (l.map f).map f = l.map f := by
  intro l
  induction l with
  | nil => rfl
  | cons a t ih =>
    simp only [List.map_cons]
    rw [hf, ih]

theorem updateMarkerInfo_idem (y : ℚ → ℚ) (t? : Option Transformation)
    (c : Option (ℚ → ℚ → Option (ℚ × ℚ))) (u : Bool) (mi : MarkerInfo) :
    updateMarkerInfo y t? c u (updateMarkerInfo y t? c u mi) =
      updateMarkerInfo y t? c u mi := by
  rw [updateMarkerInfo_eq y t? c u mi]
  cases hr : pointResolve y t? c u mi.type mi.data with
  | none =>
    dsimp only
    rw [updateMarkerInfo_eq y t? c u mi, hr]
  | some p =>
    dsimp only
    rw [updateMarkerInfo_eq]
    dsimp only
    rw [hr]

theorem syncPointPositions_idem (y : ℚ → ℚ) (ct : Option Transformation)
    (cd : Option (ℚ → ℚ → Option (ℚ × ℚ))) (markers : List MarkerInfo) :
    syncPointPositions y ct cd (syncPointPositions y ct cd markers) =
      syncPointPositions y ct cd markers := by
  cases ct with
  | none =>
    simp only [syncPointPositions, updateMarkerPositions]
    exact map_idem _ (updateMarkerInfo_idem y none cd false) markers
  | some t =>
    simp only [syncPointPositions, updateMarkerPositions]
    exact map_idem _ (updateMarkerInfo_idem y (some t) cd true) markers

theorem syncSpotMarkers_idem (y : ℚ → ℚ) (t? : Option Transformation)
    (markers : List SpotMarker) :
    syncSpotMarkers y t? (syncSpotMarkers y t? markers) =
      syncSpotMarkers y t? markers :=
  map_idem _ (syncSpotMarker_idem y t?) markers

theorem syncRouteMarkers_idem (y : ℚ → ℚ) (t? : Option Transformation)
    (markers : List RouteMarker) :
    syncRouteMarkers y t? (syncRouteMarkers y t? markers) =
      syncRouteMarkers y t? markers :=
  map_idem _ (syncRouteMarker_idem y t?) markers

/-- The full image-update pass in closed form: positions of the three marker
families are recomputed, everything else is untouched. -/
theorem imageUpdateSyncPass_eq (y : ℚ → ℚ) (s : GeoState) :
    imageUpdateSyncPass y s =
      { s with
        imageCoordinateMarkers := syncPointPositions y
          s.currentTransformation s.coordinateDisplay
          s.imageCoordinateMarkers,
        routeMarkers :=
          if s.routeSpotHandlerPresent = true ∧ 0 < s.routeMarkers.length
          then syncRouteMarkers y s.currentTransformation s.routeMarkers
          else s.routeMarkers,
        spotMarkers :=
          if s.routeSpotHandlerPresent = true ∧ 0 < s.spotMarkers.length
          then syncSpotMarkers y s.currentTransformation s.spotMarkers
          else s.spotMarkers } := by
  obtain ⟨pjd, ct, icm, rm, sm, reg, rsp, cd⟩ := s
  simp only [imageUpdateSyncPass, syncRouteSpotPositions]
  cases rsp with
  | false =>
    simp
  | true =>
    by_cases h1 : 0 < rm.length <;> by_cases h2 : 0 < sm.length <;>
      simp [h1, h2]

/-- C5: the position-synchronization pass is idempotent — running it twice
with the same current transformation and the same tracked entities leaves
every entity at exactly the position produced by the first run (the state is
a fixed point under unchanged inputs). -/
theorem claim_C5_sync_pass_idempotent (webMercatorYToLat : ℚ → ℚ)
    (s : GeoState) :
    imageUpdateSyncPass webMercatorYToLat
        (imageUpdateSyncPass webMercatorYToLat s) =
      imageUpdateSyncPass webMercatorYToLat s := by
  obtain ⟨pjd, ct, icm, rm, sm, reg, rsp, cd⟩ := s
  rw [imageUpdateSyncPass_eq, imageUpdateSyncPass_eq]
  dsimp only
  congr 1
  · exact syncPointPositions_idem webMercatorYToLat ct cd icm
  · by_cases hc : rsp = true ∧ 0 < rm.length
    · rw [if_pos hc]
      have hlen : (syncRouteMarkers webMercatorYToLat ct rm).length =
          rm.length := List.length_map _ _
      rw [if_pos ⟨hc.1, by rw [hlen]; exact hc.2⟩]
      exact syncRouteMarkers_idem webMercatorYToLat ct rm
    · rw [if_neg hc, if_neg hc]
  · by_cases hc : rsp = true ∧ 0 < sm.length
    · rw [if_pos hc]
      have hlen : (syncSpotMarkers webMercatorYToLat ct sm).length =
          sm.length := List.length_map _ _
      rw [if_pos ⟨hc.1, by rw [hlen]; exact hc.2⟩]
      exact syncSpotMarkers_idem webMercatorYToLat ct sm
    · rw [if_neg hc, if_neg hc]

theorem spotResolve_of_origin_ne (y : ℚ → ℚ) (t? : Option Transformation)
    (mm : MarkerMeta) (h : ¬ mm.origin = "image") :
    spotResolve y t? (some mm) = none := by
  simp only [spotResolve, if_neg h]

theorem spotResolve_image (y : ℚ → ℚ) (t? : Option Transformation)
    (mm : MarkerMeta) (x yy : ℚ) (ho : mm.origin = "image")
    (hx : mm.imageX = some x) (hy : mm.imageY = some yy) :
    spotResolve y t? (some mm) =
      transformImageCoordsToGps y x yy t? := by
  simp only [spotResolve, if_pos ho, hx, hy]

theorem transformImageCoordsToGps_precise (y : ℚ → ℚ) (t : Transformation)
    (x yy : ℚ) (htype : t.type = "precise") (tr : TransCoeffs)
    (htr : t.transformation = some tr) :
    transformImageCoordsToGps y x yy (some t) =
        applyAffineTransform y x yy (some t) ∧
      applyAffineTransform y x yy (some t) =
        some (y (tr.d * x + tr.e * yy + tr.f),
          webMercatorXToLon (tr.a * x + tr.b * yy + tr.c)) := by
  constructor
  · simp only [transformImageCoordsToGps, if_pos htype]
  · simp only [applyAffineTransform, htr]

/-- C4: in every position-synchronization pass, an entity (single route
marker, per-vertex route waypoint, or spot) whose origin tag is `gps` keeps
its current position — even across arbitrarily many re-estimated
transformations — while every entity whose origin tag is `image` and which
carries defined imageX/imageY is repositioned to the result of
`applyAffineTransform(imageX, imageY, currentTransformation)`; and the passes
are per-entity maps over the whole tracked collections. -/
theorem claim_C4_origin_invariants (webMercatorYToLat : ℚ → ℚ) :
    (∀ (t? : Option Transformation) (m : SpotMarker) (mm : MarkerMeta),
      m.meta = some mm → mm.origin = "gps" →
      syncSpotMarker webMercatorYToLat t? m = m) ∧
    (∀ (t? : Option Transformation) (meta : Option MarkerMeta) (pos : ℚ × ℚ)
      (mm : MarkerMeta), meta = some mm → mm.origin = "gps" →
      syncRouteMarker webMercatorYToLat t? (.single meta pos) =
        .single meta pos) ∧
    (∀ (t? : Option Transformation) (metaPoints : List MarkerMeta) (i : Nat)
      (pos : ℚ × ℚ) (pMeta : MarkerMeta), metaPoints.get? i = some pMeta →
      pMeta.origin = "gps" →
      syncRouteVertex webMercatorYToLat t? metaPoints i pos = pos) ∧
    (∀ (ts : List (Option Transformation)) (m : SpotMarker)
      (mm : MarkerMeta), m.meta = some mm → mm.origin = "gps" →
      ts.foldl (fun m t? => syncSpotMarker webMercatorYToLat t? m) m = m) ∧
    (∀ (t : Transformation) (m : SpotMarker) (mm : MarkerMeta) (x yy : ℚ)
      (tr : TransCoeffs),
      t.type = "precise" → t.transformation = some tr →
      m.meta = some mm → mm.origin = "image" →
      mm.imageX = some x → mm.imageY = some yy →
      ∃ p, applyAffineTransform webMercatorYToLat x yy (some t) = some p ∧
        (syncSpotMarker webMercatorYToLat (some t) m).pos = p ∧
        (syncSpotMarker webMercatorYToLat (some t) m).meta = m.meta) ∧
    (∀ (t : Transformation) (metaPoints : List MarkerMeta) (i : Nat)
      (pos : ℚ × ℚ) (pMeta : MarkerMeta) (x yy : ℚ) (tr : TransCoeffs),
      t.type = "precise" → t.transformation = some tr →
      metaPoints.get? i = some pMeta → pMeta.origin = "image" →
      pMeta.imageX = some x → pMeta.imageY = some yy →
      ∃ p, applyAffineTransform webMercatorYToLat x yy (some t) = some p ∧
        syncRouteVertex webMercatorYToLat (some t) metaPoints i pos = p) ∧
    (∀ (t? : Option Transformation) (markers : List SpotMarker) (k : Nat),
      k < markers.length →
      (syncSpotMarkers webMercatorYToLat t? markers).getD k ⟨none, (0, 0)⟩ =
        syncSpotMarker webMercatorYToLat t?
          (markers.getD k ⟨none, (0, 0)⟩)) ∧
    (∀ (t? : Option Transformation) (markers : List RouteMarker) (k : Nat),
      k < markers.length →
      (syncRouteMarkers webMercatorYToLat t? markers).getD k
          (.single none (0, 0)) =
        syncRouteMarker webMercatorYToLat t?
          (markers.getD k (.single none (0, 0)))) ∧
    (∀ (t? : Option Transformation) (metaPoints : List MarkerMeta)
      (positions : List (ℚ × ℚ)) (i : Nat), i < positions.length →
      syncRouteMarker webMercatorYToLat t? (.poly metaPoints positions) =
        .poly metaPoints (mapIdxFrom
          (syncRouteVertex webMercatorYToLat t? metaPoints) 0 positions) ∧
      (mapIdxFrom (syncRouteVertex webMercatorYToLat t? metaPoints) 0
          positions).getD i (0, 0) =
        syncRouteVertex webMercatorYToLat t? metaPoints i
          (positions.getD i (0, 0))) := by
  have hgps : ∀ (t? : Option Transformation) (mm : MarkerMeta),
      mm.origin = "gps" → spotResolve webMercatorYToLat t? (some mm) = none := by
    intro t? mm ho
    exact spotResolve_of_origin_ne _ _ _ (by rw [ho]; decide)
  have hspot_gps : ∀ (t? : Option Transformation) (m : SpotMarker)
      (mm : MarkerMeta), m.meta = some mm → mm.origin = "gps" →
      syncSpotMarker webMercatorYToLat t? m = m := by
    intro t? m mm hm ho
    rw [syncSpotMarker_eq, hm, hgps t? mm ho]
  refine ⟨hspot_gps, ?_, ?_, ?_, ?_, ?_, ?_, ?_, ?_⟩
  · intro t? meta pos mm hm ho
    rw [syncRouteMarker_single_eq, hm, hgps t? mm ho]
    rfl
  · intro t? metaPoints i pos pMeta hget ho
    rw [syncRouteVertex_eq, hget, hgps t? pMeta ho]
    rfl
  · intro ts
    induction ts with
    | nil =>
      intro m mm hm ho
      rfl
    | cons t? rest ih =>
      intro m mm hm ho
      simp only [List.foldl_cons]
      rw [hspot_gps t? m mm hm ho]
      exact ih m mm hm ho
  · intro t m mm x yy tr htype htr hm ho hx hy
    obtain ⟨hta, hap⟩ :=
      transformImageCoordsToGps_precise webMercatorYToLat t x yy htype tr htr
    refine ⟨_, hap, ?_, ?_⟩
    · rw [syncSpotMarker_eq, hm,
        spotResolve_image webMercatorYToLat (some t) mm x yy ho hx hy,
        hta, hap]
    · rw [syncSpotMarker_eq, hm,
        spotResolve_image webMercatorYToLat (some t) mm x yy ho hx hy,
        hta, hap]
  · intro t metaPoints i pos pMeta x yy tr htype htr hget ho hx hy
    obtain ⟨hta, hap⟩ :=
      transformImageCoordsToGps_precise webMercatorYToLat t x yy htype tr htr
    refine ⟨_, hap, ?_⟩
    rw [syncRouteVertex_eq, hget,
      spotResolve_image webMercatorYToLat (some t) pMeta x yy ho hx hy,
      hta, hap]
    rfl
  · intro t? markers k hk
    exact getD_map_lt _ _ _ _ _ hk
  · intro t? markers k hk
    exact getD_map_lt _ _ _ _ _ hk
  · intro t? metaPoints positions i hi
    refine ⟨rfl, ?_⟩
    rw [getD_mapIdxFrom _ _ _ _ _ hi, Nat.zero_add]

/-- Witness for C4: a concrete gps-origin spot is untouched by two successive
syncs, and a concrete image-origin spot lands on the transformed position. -/
theorem claim_C4_origin_invariants_witness :
    ((([some ⟨"precise", some ⟨1, 0, 0, 0, 1, 0⟩, none, [], 3⟩, none] :
        List (Option Transformation)).foldl
      (fun m t? => syncSpotMarker (fun q => q) t? m)
      ⟨some ⟨"gps", some 5, some 6⟩, (1, 2)⟩) =
        ⟨some ⟨"gps", some 5, some 6⟩, (1, 2)⟩) ∧
    ∃ p, applyAffineTransform (fun q => q) 5 6
        (some ⟨"precise", some ⟨1, 0, 0, 0, 1, 0⟩, none, [], 3⟩) = some p ∧
      (syncSpotMarker (fun q => q)
        (some ⟨"precise", some ⟨1, 0, 0, 0, 1, 0⟩, none, [], 3⟩)
        ⟨some ⟨"image", some 5, some 6⟩, (1, 2)⟩).pos = p := by
  constructor
  · exact (claim_C4_origin_invariants (fun q => q)).2.2.2.1
      [some ⟨"precise", some ⟨1, 0, 0, 0, 1, 0⟩, none, [], 3⟩, none]
      ⟨some ⟨"gps", some 5, some 6⟩, (1, 2)⟩ ⟨"gps", some 5, some 6⟩ rfl rfl
  · obtain ⟨p, h1, h2, -⟩ := (claim_C4_origin_invariants (fun q => q)).2.2.2.2.1
      ⟨"precise", some ⟨1, 0, 0, 0, 1, 0⟩, none, [], 3⟩
      ⟨some ⟨"image", some 5, some 6⟩, (1, 2)⟩ ⟨"image", some 5, some 6⟩
      5 6 ⟨1, 0, 0, 0, 1, 0⟩ rfl rfl rfl rfl rfl rfl
    exact ⟨p, h1, h2⟩

end MapGPS
